import Mathlib

/-!
Verification of the matchmaking + chat server (`server.js`).

The server state (waiting queue, room table, client registry) and every
handler are embedded as pure Lean functions.  WebSocket objects are
identified by natural numbers; `openWs` lists the sockets whose
`readyState` is `OPEN`; `Date.now()` values are supplied as explicit
`now` arguments (milliseconds); JavaScript float arithmetic on scores is
idealized as exact rational arithmetic.  Outbound messages are collected
in an output list of `(socket, message)` pairs.
-/

/-- A preference record `{ gender, level }` as carried by `find` requests
and queue entries.  The fields are arbitrary strings, as in the source. -/
structure Prefs where
  gender : String
  level : String
deriving DecidableEq, Repr

/-- A waiting-queue entry `{ ws, prefs, enqueuedAt }`. -/
structure Entry where
  ws : Nat
  prefs : Prefs
  enqueuedAt : Nat
deriving DecidableEq, Repr

/-- A room `{ a, b }`: the two member sockets. -/
structure Room where
  a : Nat
  b : Nat
deriving DecidableEq, Repr

/-- A client record `{ id, roomId, state, prefs }` as stored in the
`clients` map. -/
structure Meta where
  id : Nat
  roomId : Option Nat
  state : String
  prefs : Prefs
deriving DecidableEq, Repr

/-- The whole in-memory server state: `queue`, `rooms`, `clients`,
the set of sockets with `readyState === OPEN`, and a counter supplying
the fresh identifiers produced by `uid()`. -/
structure ServerState where
  queue : List Entry
  rooms : List (Nat × Room)
  clients : List (Nat × Meta)
  openWs : List Nat
  nextUid : Nat
deriving DecidableEq, Repr

/-- Outbound messages (the `type` discriminator plus payload fields that
matter to the claims). -/
inductive Msg where
  | hello (id : Nat)
  | searching
  | canceled
  | matched (roomId : Nat)
  | chat (text : String)
  | partnerLeft
  | left
deriving DecidableEq, Repr

/-- `ws.readyState === WebSocket.OPEN`. -/
def isOpen (s : ServerState) (ws : Nat) : Bool :=
  decide (ws ∈ s.openWs)

/-- `safeSend(ws, obj)`: append the message to the output when the
socket is open, drop it otherwise. -/
def safeSend (s : ServerState) (ws : Nat) (m : Msg) (out : List (Nat × Msg)) :
    List (Nat × Msg) :=
  if isOpen s ws then out ++ [(ws, m)] else out

/-- `clients.get(ws)` on the association-list rendering of the map. -/
def lookupWs (c : List (Nat × Meta)) (k : Nat) : Option Meta :=
  match c with
  | [] => none
  | p :: r => if p.1 = k then some p.2 else lookupWs r k

/-- Mutating the record stored under a key (JavaScript mutates the
`Meta` object in place; here every binding of the key is updated). -/
def setMeta (c : List (Nat × Meta)) (k : Nat) (f : Meta → Meta) :
    List (Nat × Meta) :=
  c.map (fun p => if p.1 = k then (p.1, f p.2) else p)

/-- `rooms.get(roomId)`. -/
def lookupRoom (rs : List (Nat × Room)) (k : Nat) : Option Room :=
  match rs with
  | [] => none
  | p :: r => if p.1 = k then some p.2 else lookupRoom r k

/-- `rooms.delete(roomId)`. -/
def eraseRoom (rs : List (Nat × Room)) (k : Nat) : List (Nat × Room) :=
  rs.filter (fun p => p.1 ≠ k)

/-- `removeFromQueue(ws)`: `findIndex` + `splice`, i.e. erase the first
entry whose socket is `ws`. -/
def removeFromQueue (q : List Entry) (ws : Nat) : List Entry :=
  q.eraseP (fun e => e.ws == ws)

/-- The `x || "any"` defaulting applied to preference strings (the empty
string is the only falsy string). -/
def orAny (s : String) : String :=
  if s = "" then "any" else s

/-- `msg.prefs?.gender || "any"`: missing field or falsy value becomes
`"any"`. -/
def strOrAny (o : Option String) : String :=
  match o with
  | none => "any"
  | some s => orAny s

/-- `matchScore(p1, p2)` from the source: +2 for equal gender
preferences, +4 for equal levels, +1 if either level is `any`, +1 if
either gender is `any`.  (The source's `-Infinity` incompatibility path
is dead code: the score is always a natural number.) -/
def matchScore (p1 p2 : Prefs) : Nat :=
  let g1 := orAny p1.gender
  let g2 := orAny p2.gender
  let l1 := orAny p1.level
  let l2 := orAny p2.level
  let score := 0
  let score := if g1 = g2 then score + 2 else score
  let score := if l1 = l2 then score + 4 else score
  let score := if l1 = "any" ∨ l2 = "any" then score + 1 else score
  let score := if g1 = "any" ∨ g2 = "any" then score + 1 else score
  score

/-- `(Date.now() - entry.enqueuedAt) / 1000`, in exact rationals. -/
def waitSeconds (now : Nat) (e : Entry) : ℚ :=
  ((now : ℚ) - (e.enqueuedAt : ℚ)) / 1000

/-- `Math.min(10, (waitA + waitB) / 6)`. -/
def waitingBonus (now : Nat) (A B : Entry) : ℚ :=
  min 10 ((waitSeconds now A + waitSeconds now B) / 6)

/-- `total = base + waitingBonus` for one candidate pair. -/
def pairTotal (now : Nat) (A B : Entry) : ℚ :=
  (matchScore A.prefs B.prefs : ℚ) + waitingBonus now A B

/-- The running `best` record of `tryMatch`'s double loop. -/
structure Best where
  i : Nat
  j : Nat
  total : ℚ
deriving DecidableEq, Repr

/-- The index pairs visited by the double loop
`for i in 0..n-1, for j in i+1..n-1`, in visiting order. -/
def pairIndices (n : Nat) : List (Nat × Nat) :=
  (List.range n).flatMap
    (fun i => ((List.range n).map (fun j => (i, j))).filter (fun p => p.1 < p.2))

/-- The body of `tryMatch`'s double loop: walk the index pairs in order,
skip pairs with a non-open socket, and replace `best` exactly when the
new total is strictly greater. -/
def scanBest (q : List Entry) (op : Nat → Bool) (now : Nat) :
    List (Nat × Nat) → Option Best → Option Best
  | [], best => best
  | p :: rest, best =>
    match q[p.1]?, q[p.2]? with
    | some A, some B =>
      if op A.ws && op B.ws then
        let total := pairTotal now A B
        match best with
        | none => scanBest q op now rest (some ⟨p.1, p.2, total⟩)
        | some b =>
          if b.total < total then scanBest q op now rest (some ⟨p.1, p.2, total⟩)
          else scanBest q op now rest (some b)
      else scanBest q op now rest best
    | _, _ => scanBest q op now rest best

/-- The pair-selection phase of `tryMatch`. -/
def pickBest (s : ServerState) (now : Nat) : Option Best :=
  scanBest s.queue (fun w => isOpen s w) now (pairIndices s.queue.length) none

/-- `leaveRoom(ws)` from the source. -/
def leaveRoom (s : ServerState) (ws : Nat) : ServerState × List (Nat × Msg) :=
  match lookupWs s.clients ws with
  | none => (s, [])
  | some meta =>
    match meta.roomId with
    | none => (s, [])
    | some roomId =>
      match lookupRoom s.rooms roomId with
      | none =>
        let reset := fun (m : Meta) => { m with roomId := none, state := "idle" }
        ({ s with clients := setMeta s.clients ws reset }, [])
      | some room =>
        let other := if room.a = ws then room.b else room.a
        let clients1 :=
          if isOpen s other then
            setMeta s.clients other (fun m => { m with roomId := none, state := "idle" })
          else s.clients
        let out1 :=
          if isOpen s other then [(other, Msg.partnerLeft)] else ([] : List (Nat × Msg))
        let clients2 := setMeta clients1 ws
          (fun m => { m with roomId := none, state := "idle" })
        ({ s with rooms := eraseRoom s.rooms roomId, clients := clients2 }, out1)

/-- `tryMatch()` from the source: stop when fewer than two entries are
queued, otherwise pick the best open pair, splice both entries out
(larger index first), create the room, mark both clients as `"chat"`
members of it, and emit the two `matched` messages. -/
def tryMatch (s : ServerState) (now : Nat) : ServerState × List (Nat × Msg) :=
  if s.queue.length < 2 then (s, [])
  else
    match pickBest s now with
    | none => (s, [])
    | some b =>
      match s.queue[b.i]?, s.queue[b.j]? with
      | some A, some B =>
        let roomId := s.nextUid
        let chatOf := fun (m : Meta) => { m with roomId := some roomId, state := "chat" }
        let clients2 := setMeta (setMeta s.clients A.ws chatOf) B.ws chatOf
        let s' : ServerState :=
          { s with
            queue := (s.queue.eraseIdx b.j).eraseIdx b.i,
            rooms := (roomId, Room.mk A.ws B.ws) :: s.rooms,
            clients := clients2,
            nextUid := s.nextUid + 1 }
        let out := safeSend s' A.ws (Msg.matched roomId) []
        let out := safeSend s' B.ws (Msg.matched roomId) out
        (s', out)
      | _, _ => (s, [])

/-- The events the server reacts to: a new connection, the four message
types, a socket silently losing `OPEN` status, the `close` handler
firing, and the 500 ms interval tick. -/
inductive Event where
  | connect (ws : Nat)
  | msgFind (ws : Nat) (now : Nat) (g l : Option String)
  | msgCancel (ws : Nat)
  | msgChat (ws : Nat) (text : Option String)
  | msgLeave (ws : Nat)
  | drop (ws : Nat)
  | closed (ws : Nat)
  | tick (now : Nat)
deriving DecidableEq, Repr

/-- One event handled to completion (the single-threaded event loop
runs every handler atomically). -/
def stepF (s : ServerState) (e : Event) : ServerState × List (Nat × Msg) :=
  match e with
  | .connect ws =>
    let meta : Meta := ⟨s.nextUid, none, "idle", ⟨"any", "any"⟩⟩
    let s1 : ServerState :=
      { s with clients := (ws, meta) :: s.clients,
               openWs := ws :: s.openWs,
               nextUid := s.nextUid + 1 }
    (s1, safeSend s1 ws (Msg.hello meta.id) [])
  | .msgFind ws now g l =>
    match lookupWs s.clients ws with
    | none => (s, [])
    | some _ =>
      let r1 := leaveRoom s ws
      let s2 : ServerState := { r1.1 with queue := removeFromQueue r1.1.queue ws }
      let prefs : Prefs := ⟨strOrAny g, strOrAny l⟩
      let searchingOf := fun (m : Meta) => { m with prefs := prefs, state := "searching" }
      let s3 : ServerState := { s2 with clients := setMeta s2.clients ws searchingOf }
      let s4 : ServerState := { s3 with queue := s3.queue ++ [⟨ws, prefs, now⟩] }
      let out2 := safeSend s4 ws Msg.searching r1.2
      let r5 := tryMatch s4 now
      (r5.1, out2 ++ r5.2)
  | .msgCancel ws =>
    match lookupWs s.clients ws with
    | none => (s, [])
    | some _ =>
      let s1 : ServerState :=
        { s with queue := removeFromQueue s.queue ws,
                 clients := setMeta s.clients ws (fun m => { m with state := "idle" }) }
      (s1, safeSend s1 ws Msg.canceled [])
  | .msgChat ws text =>
    match lookupWs s.clients ws with
    | none => (s, [])
    | some meta =>
      match meta.roomId with
      | none => (s, [])
      | some rid =>
        match lookupRoom s.rooms rid with
        | none => (s, [])
        | some room =>
          let other := if room.a = ws then room.b else room.a
          if isOpen s other then
            (s, safeSend s other (Msg.chat (match text with | none => "" | some t => if t = "" then "" else t)) [])
          else
            let out1 := safeSend s ws Msg.partnerLeft []
            let r := leaveRoom s ws
            (r.1, out1 ++ r.2)
  | .msgLeave ws =>
    match lookupWs s.clients ws with
    | none => (s, [])
    | some _ =>
      let r1 := leaveRoom s ws
      let s2 : ServerState :=
        { r1.1 with queue := removeFromQueue r1.1.queue ws,
                    clients := setMeta r1.1.clients ws (fun m => { m with state := "idle" }) }
      (s2, r1.2 ++ safeSend s2 ws Msg.left [])
  | .drop ws =>
    ({ s with openWs := s.openWs.filter (fun w => w ≠ ws) }, [])
  | .closed ws =>
    let s1 : ServerState := { s with queue := removeFromQueue s.queue ws }
    let r := leaveRoom s1 ws
    ({ r.1 with clients := r.1.clients.filter (fun p => p.1 ≠ ws) }, r.2)
  | .tick now =>
    let s1 : ServerState := { s with queue := s.queue.filter (fun e => isOpen s e.ws) }
    tryMatch s1 now

/-- The socket has a waiting-queue entry. -/
def InQueue (s : ServerState) (ws : Nat) : Prop :=
  ∃ e ∈ s.queue, e.ws = ws

/-- The socket is a member of some active room. -/
def InRoom (s : ServerState) (ws : Nat) : Prop :=
  ∃ p ∈ s.rooms, ws = p.2.a ∨ ws = p.2.b

instance (s : ServerState) (ws : Nat) : Decidable (InQueue s ws) :=
  inferInstanceAs (Decidable (∃ e ∈ s.queue, e.ws = ws))

instance (s : ServerState) (ws : Nat) : Decidable (InRoom s ws) :=
  inferInstanceAs (Decidable (∃ p ∈ s.rooms, ws = p.2.a ∨ ws = p.2.b))

/-- When an event can fire: `connect` only for a genuinely fresh socket
object, message events only from an open socket, `drop` only for an open
one, the `close` handler only after the socket stopped being open. -/
def Guard (s : ServerState) (e : Event) : Prop :=
  match e with
  | .connect ws =>
    lookupWs s.clients ws = none ∧ ws ∉ s.openWs ∧ ¬InQueue s ws ∧ ¬InRoom s ws
  | .msgFind ws _ _ _ => ws ∈ s.openWs
  | .msgCancel ws => ws ∈ s.openWs
  | .msgChat ws _ => ws ∈ s.openWs
  | .msgLeave ws => ws ∈ s.openWs
  | .drop ws => ws ∈ s.openWs
  | .closed ws => ws ∉ s.openWs
  | .tick _ => True

instance (s : ServerState) (e : Event) : Decidable (Guard s e) :=
  match e with
  | .connect ws =>
    inferInstanceAs (Decidable (lookupWs s.clients ws = none ∧ ws ∉ s.openWs ∧ ¬InQueue s ws ∧ ¬InRoom s ws))
  | .msgFind ws _ _ _ => inferInstanceAs (Decidable (ws ∈ s.openWs))
  | .msgCancel ws => inferInstanceAs (Decidable (ws ∈ s.openWs))
  | .msgChat ws _ => inferInstanceAs (Decidable (ws ∈ s.openWs))
  | .msgLeave ws => inferInstanceAs (Decidable (ws ∈ s.openWs))
  | .drop ws => inferInstanceAs (Decidable (ws ∈ s.openWs))
  | .closed ws => inferInstanceAs (Decidable (ws ∉ s.openWs))
  | .tick _ => inferInstanceAs (Decidable True)

/-- The state at process start: everything empty. -/
def initState : ServerState :=
  ⟨[], [], [], [], 0⟩

/-- The states the running server can actually be in. -/
inductive Reachable : ServerState → Prop where
  | init : Reachable initState
  | step (s : ServerState) (e : Event) :
      Reachable s → Guard s e → Reachable (stepF s e).1

/-- The base score exactly as the specification words it: `base = 0`;
`+2` if the two desired-gender fields are equal; `+4` if the two level
fields are equal; `+1` if either gender field is `any`; `+1` if either
level field is `any`. -/
def specBase (p1 p2 : Prefs) : Nat :=
  (if p1.gender = p2.gender then 2 else 0) +
  (if p1.level = p2.level then 4 else 0) +
  (if p1.gender = "any" ∨ p2.gender = "any" then 1 else 0) +
  (if p1.level = "any" ∨ p2.level = "any" then 1 else 0)

/-- The inductive invariant of the running server.  Beyond the spec's
observable properties (legal lifecycle-state strings, pool/room
exclusivity) it carries the bookkeeping facts needed to push the
invariant through each handler: key uniqueness in all three tables,
queue entries referring to registered sockets, and the two-way
correspondence between a room's member list and its members' `roomId`
fields. -/
structure ServerInv (s : ServerState) : Prop where
  statesOK : ∀ p ∈ s.clients,
    p.2.state = "idle" ∨ p.2.state = "searching" ∨ p.2.state = "chat"
  queueNodup : (s.queue.map Entry.ws).Nodup
  roomKeysNodup : (s.rooms.map Prod.fst).Nodup
  roomKeysLt : ∀ p ∈ s.rooms, p.1 < s.nextUid
  clientKeysNodup : (s.clients.map Prod.fst).Nodup
  queueReg : ∀ e ∈ s.queue, (lookupWs s.clients e.ws).isSome = true
  roomMeta : ∀ p ∈ s.rooms, ∀ ws, (ws = p.2.a ∨ ws = p.2.b) →
    ∃ m, lookupWs s.clients ws = some m ∧ m.roomId = some p.1
  roomIdSound : ∀ p ∈ s.clients, ∀ rid room, p.2.roomId = some rid →
    lookupRoom s.rooms rid = some room → p.1 = room.a ∨ p.1 = room.b
  roomIdLt : ∀ p ∈ s.clients, ∀ rid, p.2.roomId = some rid → rid < s.nextUid
  mutEx : ∀ ws, ¬(InQueue s ws ∧ InRoom s ws)

/-- Trace A: sockets 10 and 11 connect, both send `find` with empty
preferences, and get matched into room 2. -/
def trA1 : ServerState := (stepF initState (.connect 10)).1

def trA2 : ServerState := (stepF trA1 (.connect 11)).1

def trA3 : ServerState := (stepF trA2 (.msgFind 10 0 none none)).1

def trA4 : ServerState := (stepF trA3 (.msgFind 11 0 none none)).1

/-- Trace B: socket 20 connects and searches, its transport closes
without the `close` handler having fired yet, then socket 21 searches:
the dead entry stays in the queue through 21's `tryMatch` invocation. -/
def trB1 : ServerState := (stepF initState (.connect 20)).1

def trB2 : ServerState := (stepF trB1 (.connect 21)).1

def trB3 : ServerState := (stepF trB2 (.msgFind 20 0 none none)).1

def trB4 : ServerState := (stepF trB3 (.drop 20)).1

def trB5 : ServerState := (stepF trB4 (.msgFind 21 0 none none)).1

/-- Two `{any, any}` entries enqueued at time 0, sockets 1 and 2. -/
def wE1 : Entry := ⟨1, ⟨"any", "any"⟩, 0⟩

def wE2 : Entry := ⟨2, ⟨"any", "any"⟩, 0⟩

/-- A state whose pool holds exactly `wE1` and `wE2`, both open. -/
def wsPair : ServerState :=
  ⟨[wE1, wE2], [],
   [(1, ⟨100, none, "searching", ⟨"any", "any"⟩⟩),
    (2, ⟨101, none, "searching", ⟨"any", "any"⟩⟩)],
   [1, 2], 7⟩

/-- A state with sockets 1 and 2 chatting in room 5, both open. -/
def wsRoom : ServerState :=
  ⟨[], [(5, ⟨1, 2⟩)],
   [(1, ⟨100, some 5, "chat", ⟨"any", "any"⟩⟩),
    (2, ⟨101, some 5, "chat", ⟨"any", "any"⟩⟩)],
   [1, 2], 7⟩

/-- Like `wsRoom`, but socket 2's transport is no longer open. -/
def wsRoomDead : ServerState :=
  ⟨[], [(5, ⟨1, 2⟩)],
   [(1, ⟨100, some 5, "chat", ⟨"any", "any"⟩⟩),
    (2, ⟨101, some 5, "chat", ⟨"any", "any"⟩⟩)],
   [1], 7⟩

theorem setMeta_cons (p : Nat × Meta) (r : List (Nat × Meta)) (k : Nat) (f : Meta → Meta) :
    setMeta (p :: r) k f = (if p.1 = k then (p.1, f p.2) else p) :: setMeta r k f := rfl

theorem lookupWs_setMeta_self (c : List (Nat × Meta)) (k : Nat) (f : Meta → Meta) :
    lookupWs (setMeta c k f) k = (lookupWs c k).map f := by
  induction c with
  | nil => rfl
  | cons p r ih =>
    rw [setMeta_cons]
    by_cases h : p.1 = k
    · simp [lookupWs, h]
    · simp only [lookupWs, h, if_neg h, if_false]
      exact ih

theorem lookupWs_setMeta_ne (c : List (Nat × Meta)) (k k' : Nat) (f : Meta → Meta)
    (h : k' ≠ k) : lookupWs (setMeta c k f) k' = lookupWs c k' := by
  induction c with
  | nil => rfl
  | cons p r ih =>
    rw [setMeta_cons]
    by_cases hp : p.1 = k
    · have hp' : p.1 ≠ k' := by rw [hp]; exact fun hh => h hh.symm
      simp only [lookupWs, if_pos hp, hp', if_neg hp']
      exact ih
    · simp only [if_neg hp, lookupWs]
      rw [ih]

theorem setMeta_fst (c : List (Nat × Meta)) (k : Nat) (f : Meta → Meta) :
    (setMeta c k f).map Prod.fst = c.map Prod.fst := by
  induction c with
  | nil => rfl
  | cons p r ih =>
    rw [setMeta_cons]
    by_cases h : p.1 = k <;> simp [h, ih]

theorem mem_setMeta (c : List (Nat × Meta)) (k : Nat) (f : Meta → Meta)
    (p : Nat × Meta) (hp : p ∈ setMeta c k f) :
    p ∈ c ∨ ∃ m, (k, m) ∈ c ∧ p = (k, f m) := by
  rcases List.mem_map.1 hp with ⟨q, hq, hqe⟩
  by_cases h : q.1 = k
  · right
    refine ⟨q.2, ?_, ?_⟩
    · have : q = (k, q.2) := by rw [← h]
      rw [← this]; exact hq
    · rw [← hqe]; simp [h]
  · left
    have : (if q.1 = k then (q.1, f q.2) else q) = q := by simp [h]
    rw [← hqe, this]; exact hq

theorem lookupWs_isSome_setMeta (c : List (Nat × Meta)) (k k' : Nat) (f : Meta → Meta) :
    (lookupWs (setMeta c k f) k').isSome = (lookupWs c k').isSome := by
  by_cases h : k' = k
  · subst h
    rw [lookupWs_setMeta_self]
    cases lookupWs c k' <;> rfl
  · rw [lookupWs_setMeta_ne c k k' f h]

theorem lookupWs_eq_none_iff (c : List (Nat × Meta)) (k : Nat) :
    lookupWs c k = none ↔ k ∉ c.map Prod.fst := by
  induction c with
  | nil => simp [lookupWs]
  | cons p r ih =>
    by_cases h : p.1 = k
    · simp [lookupWs, h]
    · simp only [List.map_cons]
      rw [lookupWs, if_neg h, ih]
      constructor
      · intro hk hmem
        rcases List.mem_cons.1 hmem with h1 | h1
        · exact h h1.symm
        · exact hk h1
      · intro hk h1
        exact hk (List.mem_cons_of_mem _ h1)

theorem lookupWs_mem (c : List (Nat × Meta)) (k : Nat) (m : Meta)
    (h : lookupWs c k = some m) : (k, m) ∈ c := by
  induction c with
  | nil => simp [lookupWs] at h
  | cons p r ih =>
    by_cases hp : p.1 = k
    · simp only [lookupWs, if_pos hp, Option.some.injEq] at h
      have : p = (k, m) := by
        cases p; simp_all
      rw [← this]; exact List.mem_cons_self _ _
    · simp only [lookupWs, if_neg hp] at h
      exact List.mem_cons_of_mem _ (ih h)

theorem lookupWs_of_mem_nodup (c : List (Nat × Meta)) (k : Nat) (m : Meta)
    (hn : (c.map Prod.fst).Nodup) (h : (k, m) ∈ c) : lookupWs c k = some m := by
  induction c with
  | nil => simp at h
  | cons p r ih =>
    rcases List.mem_cons.1 h with h1 | h1
    · rw [← h1]; simp [lookupWs]
    · have hk : k ∈ r.map Prod.fst := List.mem_map.2 ⟨(k, m), h1, rfl⟩
      have hp : p.1 ≠ k := by
        intro he
        exact (List.nodup_cons.1 (by simpa using hn)).1 (he ▸ hk)
      simp only [lookupWs, if_neg hp]
      exact ih (List.nodup_cons.1 (by simpa using hn)).2 h1

theorem lookupWs_filter_ne (c : List (Nat × Meta)) (ws k : Nat) (h : k ≠ ws) :
    lookupWs (c.filter (fun p => p.1 ≠ ws)) k = lookupWs c k := by
  induction c with
  | nil => rfl
  | cons p r ih =>
    by_cases hp : p.1 = ws
    · have hk : p.1 ≠ k := by rw [hp]; exact fun hh => h hh.symm
      have hf : (p :: r).filter (fun p => p.1 ≠ ws) = r.filter (fun p => p.1 ≠ ws) := by
        simp [List.filter_cons, hp]
      rw [hf, ih]
      simp [lookupWs, hk]
    · have hf : (p :: r).filter (fun p => p.1 ≠ ws) = p :: r.filter (fun p => p.1 ≠ ws) := by
        simp [List.filter_cons, hp]
      rw [hf]
      by_cases hq : p.1 = k
      · simp [lookupWs, hq]
      · simp only [lookupWs, if_neg hq]; exact ih

theorem lookupRoom_mem (rs : List (Nat × Room)) (k : Nat) (r : Room)
    (h : lookupRoom rs k = some r) : (k, r) ∈ rs := by
  induction rs with
  | nil => simp [lookupRoom] at h
  | cons p t ih =>
    by_cases hp : p.1 = k
    · simp only [lookupRoom, if_pos hp, Option.some.injEq] at h
      have : p = (k, r) := by cases p; simp_all
      rw [← this]; exact List.mem_cons_self _ _
    · simp only [lookupRoom, if_neg hp] at h
      exact List.mem_cons_of_mem _ (ih h)

theorem lookupRoom_isSome_of_mem (rs : List (Nat × Room)) (k : Nat) (r : Room)
    (h : (k, r) ∈ rs) : ∃ r2, lookupRoom rs k = some r2 := by
  induction rs with
  | nil => simp at h
  | cons p t ih =>
    by_cases hp : p.1 = k
    · exact ⟨p.2, by simp [lookupRoom, hp]⟩
    · rcases List.mem_cons.1 h with h1 | h1
      · rw [← h1] at hp; simp at hp
      · simpa [lookupRoom, hp] using ih h1

theorem lookupRoom_of_mem_nodup (rs : List (Nat × Room)) (k : Nat) (r : Room)
    (hn : (rs.map Prod.fst).Nodup) (h : (k, r) ∈ rs) : lookupRoom rs k = some r := by
  induction rs with
  | nil => simp at h
  | cons p t ih =>
    rcases List.mem_cons.1 h with h1 | h1
    · rw [← h1]; simp [lookupRoom]
    · have hk : k ∈ t.map Prod.fst := List.mem_map.2 ⟨(k, r), h1, rfl⟩
      have hp : p.1 ≠ k := by
        intro he
        exact (List.nodup_cons.1 (by simpa using hn)).1 (he ▸ hk)
      simp only [lookupRoom, if_neg hp]
      exact ih (List.nodup_cons.1 (by simpa using hn)).2 h1

theorem mem_eraseRoom (rs : List (Nat × Room)) (k : Nat) (p : Nat × Room)
    (h : p ∈ eraseRoom rs k) : p ∈ rs ∧ p.1 ≠ k := by
  have := List.mem_filter.1 h
  exact ⟨this.1, by simpa using this.2⟩

theorem eraseRoom_fst_sublist (rs : List (Nat × Room)) (k : Nat) :
    ((eraseRoom rs k).map Prod.fst).Sublist (rs.map Prod.fst) :=
  (List.filter_sublist _).map _

theorem lookupRoom_eraseRoom_self (rs : List (Nat × Room)) (k : Nat) :
    lookupRoom (eraseRoom rs k) k = none := by
  induction rs with
  | nil => rfl
  | cons p t ih =>
    by_cases hp : p.1 = k
    · simpa [eraseRoom, List.filter_cons, hp] using ih
    · have : decide (p.1 ≠ k) = true := by simp [hp]
      simp only [eraseRoom, List.filter_cons, this, if_true, lookupRoom, if_neg hp]
      simpa [eraseRoom] using ih

theorem lookupRoom_eraseRoom_ne (rs : List (Nat × Room)) (k k' : Nat) (h : k' ≠ k) :
    lookupRoom (eraseRoom rs k) k' = lookupRoom rs k' := by
  induction rs with
  | nil => rfl
  | cons p t ih =>
    by_cases hp : p.1 = k
    · have hk : p.1 ≠ k' := by rw [hp]; exact fun hh => h hh.symm
      simp only [eraseRoom, List.filter_cons, hp]
      simp only [lookupRoom, if_neg hk]
      simpa [eraseRoom] using ih
    · have : decide (p.1 ≠ k) = true := by simp [hp]
      simp only [eraseRoom, List.filter_cons, this, if_true, lookupRoom]
      by_cases hq : p.1 = k'
      · simp [hq]
      · simp only [if_neg hq]; simpa [eraseRoom] using ih

theorem removeFromQueue_sublist (q : List Entry) (ws : Nat) :
    (removeFromQueue q ws).Sublist q :=
  List.eraseP_sublist q

theorem removeFromQueue_not_mem (q : List Entry) (ws : Nat)
    (hn : (q.map Entry.ws).Nodup) :
    ∀ e ∈ removeFromQueue q ws, e.ws ≠ ws := by
  induction q with
  | nil => intro e he; simp [removeFromQueue] at he
  | cons a t ih =>
    intro e he
    have hn2 := hn
    rw [List.map_cons, List.nodup_cons] at hn2
    by_cases ha : a.ws = ws
    · have hb : (a.ws == ws) = true := by simp [ha]
      rw [removeFromQueue, List.eraseP_cons, hb, cond_true] at he
      have hws : ws ∉ t.map Entry.ws := by
        rw [← ha]; exact hn2.1
      intro hew
      exact hws (List.mem_map.2 ⟨e, he, hew⟩)
    · have hb : (a.ws == ws) = false := by simp [ha]
      rw [removeFromQueue, List.eraseP_cons, hb, cond_false] at he
      rcases List.mem_cons.1 he with h1 | h1
      · rw [h1]; exact ha
      · exact ih hn2.2 e h1

theorem removeFromQueue_of_not_mem (q : List Entry) (ws : Nat)
    (h : ∀ e ∈ q, e.ws ≠ ws) : removeFromQueue q ws = q :=
  List.eraseP_of_forall_not (fun e he => by simpa using h e he)

theorem perm_cons_eraseIdx (l : List Entry) (i : Nat) (h : i < l.length) :
    l.Perm (l[i] :: l.eraseIdx i) := by
  induction l generalizing i with
  | nil => simp at h
  | cons a t ih =>
    cases i with
    | zero => simp [List.eraseIdx]
    | succ n =>
      have hn : n < t.length := by simpa using h
      have h1 : t.Perm (t[n] :: t.eraseIdx n) := ih n hn
      have h2 : (a :: t).Perm (a :: (t[n] :: t.eraseIdx n)) := h1.cons a
      have h3 : (a :: (t[n] :: t.eraseIdx n)).Perm (t[n] :: (a :: t.eraseIdx n)) :=
        List.Perm.swap _ _ _
      simp only [List.getElem_cons_succ, List.eraseIdx_cons_succ]
      exact h2.trans h3

theorem mem_pairIndices (n i j : Nat) :
    (i, j) ∈ pairIndices n ↔ i < j ∧ j < n := by
  constructor
  · intro h
    rcases List.mem_flatMap.1 h with ⟨a, _, hm⟩
    have h2 := List.mem_filter.1 hm
    rcases List.mem_map.1 h2.1 with ⟨b, hb, he⟩
    have hij : a = i ∧ b = j := by
      constructor <;> (cases he; rfl)
    rcases hij with ⟨rfl, rfl⟩
    exact ⟨by simpa using h2.2, List.mem_range.1 hb⟩
  · rintro ⟨hij, hjn⟩
    refine List.mem_flatMap.2 ⟨i, List.mem_range.2 (lt_trans hij hjn), ?_⟩
    refine List.mem_filter.2 ⟨List.mem_map.2 ⟨j, List.mem_range.2 hjn, rfl⟩, by simpa using hij⟩

theorem scanBest_sound (q : List Entry) (op : Nat → Bool) (now : Nat) :
    ∀ (ps : List (Nat × Nat)) (b0 : Option Best) (b : Best),
      scanBest q op now ps b0 = some b →
      (∀ p ∈ ps, ∀ A B, q[p.1]? = some A → q[p.2]? = some B →
          op A.ws = true → op B.ws = true → pairTotal now A B ≤ b.total) ∧
      (b0 = some b ∨
        ∃ pre post A B, ps = pre ++ (b.i, b.j) :: post ∧
          q[b.i]? = some A ∧ q[b.j]? = some B ∧
          op A.ws = true ∧ op B.ws = true ∧ pairTotal now A B = b.total ∧
          (∀ p ∈ pre, ∀ A2 B2, q[p.1]? = some A2 → q[p.2]? = some B2 →
            op A2.ws = true → op B2.ws = true → pairTotal now A2 B2 < b.total) ∧
          (∀ b1, b0 = some b1 → b1.total < b.total)) := by
  intro ps
  induction ps with
  | nil =>
    intro b0 b h
    simp only [scanBest] at h
    refine ⟨?_, Or.inl h⟩
    intro p hp
    simp at hp
  | cons p rest ih =>
    intro b0 b h
    cases hq1 : q[p.1]? with
    | none =>
      have h2 : scanBest q op now rest b0 = some b := by
        simpa only [scanBest, hq1] using h
      obtain ⟨part1, part2⟩ := ih b0 b h2
      constructor
      · intro p2 hp2 A2 B2 hA2 hB2 ho2 ho3
        rcases List.mem_cons.1 hp2 with h1 | h1
        · rw [h1, hq1] at hA2; cases hA2
        · exact part1 p2 h1 A2 B2 hA2 hB2 ho2 ho3
      · rcases part2 with h3 | ⟨pre, post, A2, B2, hdec, hba, hbb, hoa, hob, htot, hpre, hlast⟩
        · exact Or.inl h3
        · refine Or.inr ⟨p :: pre, post, A2, B2, by rw [hdec]; rfl, hba, hbb, hoa, hob, htot, ?_, hlast⟩
          intro p3 hp3 A3 B3 hA3 hB3 ho4 ho5
          rcases List.mem_cons.1 hp3 with h1 | h1
          · rw [h1, hq1] at hA3; cases hA3
          · exact hpre p3 h1 A3 B3 hA3 hB3 ho4 ho5
    | some A =>
      cases hq2 : q[p.2]? with
      | none =>
        have h2 : scanBest q op now rest b0 = some b := by
          simpa only [scanBest, hq1, hq2] using h
        obtain ⟨part1, part2⟩ := ih b0 b h2
        constructor
        · intro p2 hp2 A2 B2 hA2 hB2 ho2 ho3
          rcases List.mem_cons.1 hp2 with h1 | h1
          · rw [h1, hq2] at hB2; cases hB2
          · exact part1 p2 h1 A2 B2 hA2 hB2 ho2 ho3
        · rcases part2 with h3 | ⟨pre, post, A2, B2, hdec, hba, hbb, hoa, hob, htot, hpre, hlast⟩
          · exact Or.inl h3
          · refine Or.inr ⟨p :: pre, post, A2, B2, by rw [hdec]; rfl, hba, hbb, hoa, hob, htot, ?_, hlast⟩
            intro p3 hp3 A3 B3 hA3 hB3 ho4 ho5
            rcases List.mem_cons.1 hp3 with h1 | h1
            · rw [h1, hq2] at hB3; cases hB3
            · exact hpre p3 h1 A3 B3 hA3 hB3 ho4 ho5
      | some B =>
        cases hop : op A.ws && op B.ws with
        | false =>
          have h2 : scanBest q op now rest b0 = some b := by
            simpa only [scanBest, hq1, hq2, hop, Bool.false_eq_true, if_false] using h
          obtain ⟨part1, part2⟩ := ih b0 b h2
          constructor
          · intro p2 hp2 A2 B2 hA2 hB2 ho2 ho3
            rcases List.mem_cons.1 hp2 with h1 | h1
            · exfalso
              rw [h1, hq1] at hA2
              rw [h1, hq2] at hB2
              cases hA2; cases hB2
              rw [ho2, ho3] at hop
              simp at hop
            · exact part1 p2 h1 A2 B2 hA2 hB2 ho2 ho3
          · rcases part2 with h3 | ⟨pre, post, A2, B2, hdec, hba, hbb, hoa, hob, htot, hpre, hlast⟩
            · exact Or.inl h3
            · refine Or.inr ⟨p :: pre, post, A2, B2, by rw [hdec]; rfl, hba, hbb, hoa, hob, htot, ?_, hlast⟩
              intro p3 hp3 A3 B3 hA3 hB3 ho4 ho5
              rcases List.mem_cons.1 hp3 with h1 | h1
              · exfalso
                rw [h1, hq1] at hA3
                rw [h1, hq2] at hB3
                cases hA3; cases hB3
                rw [ho4, ho5] at hop
                simp at hop
              · exact hpre p3 h1 A3 B3 hA3 hB3 ho4 ho5
        | true =>
          cases b0 with
          | none =>
            have h2 : scanBest q op now rest (some ⟨p.1, p.2, pairTotal now A B⟩) = some b := by
              simpa only [scanBest, hq1, hq2, hop, if_true] using h
            obtain ⟨part1, part2⟩ := ih _ b h2
            have hIsLe : pairTotal now A B ≤ b.total := by
              rcases part2 with h3 | ⟨_, _, _, _, _, _, _, _, _, _, _, hlast⟩
              · cases h3; exact le_refl _
              · exact le_of_lt (hlast ⟨p.1, p.2, pairTotal now A B⟩ rfl)
            constructor
            · intro p2 hp2 A2 B2 hA2 hB2 ho2 ho3
              rcases List.mem_cons.1 hp2 with h1 | h1
              · rw [h1, hq1] at hA2
                rw [h1, hq2] at hB2
                cases hA2; cases hB2
                exact hIsLe
              · exact part1 p2 h1 A2 B2 hA2 hB2 ho2 ho3
            · right
              rcases part2 with h3 | ⟨pre, post, A2, B2, hdec, hba, hbb, hoa, hob, htot, hpre, hlast⟩
              · injection h3 with h3
                subst h3
                refine ⟨[], rest, A, B, by simp, by simpa using hq1, by simpa using hq2, ?_, ?_, rfl, ?_, ?_⟩
                · exact (Bool.and_eq_true _ _ ▸ hop).1
                · exact (Bool.and_eq_true _ _ ▸ hop).2
                · intro p3 hp3; simp at hp3
                · intro b1 hb1; cases hb1
              · refine ⟨p :: pre, post, A2, B2, by rw [hdec]; rfl, hba, hbb, hoa, hob, htot, ?_, ?_⟩
                · intro p3 hp3 A3 B3 hA3 hB3 ho4 ho5
                  rcases List.mem_cons.1 hp3 with h1 | h1
                  · rw [h1, hq1] at hA3
                    rw [h1, hq2] at hB3
                    cases hA3; cases hB3
                    exact hlast ⟨p.1, p.2, pairTotal now A B⟩ rfl
                  · exact hpre p3 h1 A3 B3 hA3 hB3 ho4 ho5
                · intro b1 hb1; cases hb1
          | some b1 =>
            by_cases hcmp : b1.total < pairTotal now A B
            · have h2 : scanBest q op now rest (some ⟨p.1, p.2, pairTotal now A B⟩) = some b := by
                simpa only [scanBest, hq1, hq2, hop, if_true, if_pos hcmp] using h
              obtain ⟨part1, part2⟩ := ih _ b h2
              have hIsLe : pairTotal now A B ≤ b.total := by
                rcases part2 with h3 | ⟨_, _, _, _, _, _, _, _, _, _, _, hlast⟩
                · cases h3; exact le_refl _
                · exact le_of_lt (hlast ⟨p.1, p.2, pairTotal now A B⟩ rfl)
              constructor
              · intro p2 hp2 A2 B2 hA2 hB2 ho2 ho3
                rcases List.mem_cons.1 hp2 with h1 | h1
                · rw [h1, hq1] at hA2
                  rw [h1, hq2] at hB2
                  cases hA2; cases hB2
                  exact hIsLe
                · exact part1 p2 h1 A2 B2 hA2 hB2 ho2 ho3
              · right
                rcases part2 with h3 | ⟨pre, post, A2, B2, hdec, hba, hbb, hoa, hob, htot, hpre, hlast⟩
                · injection h3 with h3
                  subst h3
                  refine ⟨[], rest, A, B, by simp, by simpa using hq1, by simpa using hq2, ?_, ?_, rfl, ?_, ?_⟩
                  · exact (Bool.and_eq_true _ _ ▸ hop).1
                  · exact (Bool.and_eq_true _ _ ▸ hop).2
                  · intro p3 hp3; simp at hp3
                  · intro b2 hb2
                    injection hb2 with hb2
                    subst hb2
                    exact hcmp
                · refine ⟨p :: pre, post, A2, B2, by rw [hdec]; rfl, hba, hbb, hoa, hob, htot, ?_, ?_⟩
                  · intro p3 hp3 A3 B3 hA3 hB3 ho4 ho5
                    rcases List.mem_cons.1 hp3 with h1 | h1
                    · rw [h1, hq1] at hA3
                      rw [h1, hq2] at hB3
                      cases hA3; cases hB3
                      exact hlast ⟨p.1, p.2, pairTotal now A B⟩ rfl
                    · exact hpre p3 h1 A3 B3 hA3 hB3 ho4 ho5
                  · intro b2 hb2
                    injection hb2 with hb2
                    subst hb2
                    exact lt_trans hcmp (hlast ⟨p.1, p.2, pairTotal now A B⟩ rfl)
            · have h2 : scanBest q op now rest (some b1) = some b := by
                simpa only [scanBest, hq1, hq2, hop, if_true, if_neg hcmp] using h
              obtain ⟨part1, part2⟩ := ih _ b h2
              have hble : pairTotal now A B ≤ b.total := by
                rcases part2 with h3 | ⟨_, _, _, _, _, _, _, _, _, _, _, hlast⟩
                · injection h3 with h3
                  subst h3
                  exact le_of_not_lt hcmp
                · exact le_trans (le_of_not_lt hcmp) (le_of_lt (hlast b1 rfl))
              constructor
              · intro p2 hp2 A2 B2 hA2 hB2 ho2 ho3
                rcases List.mem_cons.1 hp2 with h1 | h1
                · rw [h1, hq1] at hA2
                  rw [h1, hq2] at hB2
                  cases hA2; cases hB2
                  exact hble
                · exact part1 p2 h1 A2 B2 hA2 hB2 ho2 ho3
              · rcases part2 with h3 | ⟨pre, post, A2, B2, hdec, hba, hbb, hoa, hob, htot, hpre, hlast⟩
                · exact Or.inl h3
                · refine Or.inr ⟨p :: pre, post, A2, B2, by rw [hdec]; rfl, hba, hbb, hoa, hob, htot, ?_, ?_⟩
                  · intro p3 hp3 A3 B3 hA3 hB3 ho4 ho5
                    rcases List.mem_cons.1 hp3 with h1 | h1
                    · rw [h1, hq1] at hA3
                      rw [h1, hq2] at hB3
                      cases hA3; cases hB3
                      exact lt_of_le_of_lt (le_of_not_lt hcmp) (hlast b1 rfl)
                    · exact hpre p3 h1 A3 B3 hA3 hB3 ho4 ho5
                  · exact hlast

theorem pickBest_sound (s : ServerState) (now : Nat) (b : Best)
    (h : pickBest s now = some b) :
    ∃ pre post A B, pairIndices s.queue.length = pre ++ (b.i, b.j) :: post ∧
      s.queue[b.i]? = some A ∧ s.queue[b.j]? = some B ∧
      isOpen s A.ws = true ∧ isOpen s B.ws = true ∧ pairTotal now A B = b.total ∧
      (∀ p ∈ pairIndices s.queue.length, ∀ A2 B2, s.queue[p.1]? = some A2 →
        s.queue[p.2]? = some B2 → isOpen s A2.ws = true → isOpen s B2.ws = true →
        pairTotal now A2 B2 ≤ b.total) ∧
      (∀ p ∈ pre, ∀ A2 B2, s.queue[p.1]? = some A2 → s.queue[p.2]? = some B2 →
        isOpen s A2.ws = true → isOpen s B2.ws = true → pairTotal now A2 B2 < b.total) := by
  obtain ⟨part1, part2⟩ :=
    scanBest_sound s.queue (fun w => isOpen s w) now (pairIndices s.queue.length) none b h
  rcases part2 with h2 | ⟨pre, post, A, B, hdec, hba, hbb, hoa, hob, htot, hpre, _⟩
  · cases h2
  · exact ⟨pre, post, A, B, hdec, hba, hbb, hoa, hob, htot, part1, hpre⟩

theorem pickBest_bounds (s : ServerState) (now : Nat) (b : Best)
    (h : pickBest s now = some b) : b.i < b.j ∧ b.j < s.queue.length := by
  obtain ⟨pre, post, A, B, hdec, _⟩ := pickBest_sound s now b h
  have hm : (b.i, b.j) ∈ pairIndices s.queue.length := by
    rw [hdec]
    exact List.mem_append_right _ (List.mem_cons_self _ _)
  exact (mem_pairIndices _ _ _).1 hm

theorem leaveRoom_eq_of_none (s : ServerState) (ws : Nat)
    (h : lookupWs s.clients ws = none) : leaveRoom s ws = (s, []) := by
  simp only [leaveRoom, h]

theorem leaveRoom_eq_of_noRoomId (s : ServerState) (ws : Nat) (m : Meta)
    (h : lookupWs s.clients ws = some m) (h2 : m.roomId = none) :
    leaveRoom s ws = (s, []) := by
  simp only [leaveRoom, h, h2]

theorem leaveRoom_eq_of_staleRoom (s : ServerState) (ws : Nat) (m : Meta) (rid : Nat)
    (h : lookupWs s.clients ws = some m) (h2 : m.roomId = some rid)
    (h3 : lookupRoom s.rooms rid = none) :
    leaveRoom s ws = ({ s with clients := setMeta s.clients ws (fun m2 => { m2 with roomId := none, state := "idle" }) }, []) := by
  simp only [leaveRoom, h, h2, h3]

theorem leaveRoom_eq_of_room (s : ServerState) (ws : Nat) (m : Meta) (rid : Nat)
    (room : Room) (h : lookupWs s.clients ws = some m) (h2 : m.roomId = some rid)
    (h3 : lookupRoom s.rooms rid = some room) :
    leaveRoom s ws =
      ({ s with rooms := eraseRoom s.rooms rid, clients := setMeta (if isOpen s (if room.a = ws then room.b else room.a) then setMeta s.clients (if room.a = ws then room.b else room.a) (fun m2 => { m2 with roomId := none, state := "idle" }) else s.clients) ws (fun m2 => { m2 with roomId := none, state := "idle" }) },
       if isOpen s (if room.a = ws then room.b else room.a) then [((if room.a = ws then room.b else room.a), Msg.partnerLeft)] else []) := by
  simp only [leaveRoom, h, h2, h3]

theorem leaveRoom_queue (s : ServerState) (ws : Nat) :
    (leaveRoom s ws).1.queue = s.queue := by
  cases h1 : lookupWs s.clients ws with
  | none => simp only [leaveRoom, h1]
  | some m =>
    cases h2 : m.roomId with
    | none => simp only [leaveRoom, h1, h2]
    | some rid =>
      cases h3 : lookupRoom s.rooms rid with
      | none => simp only [leaveRoom, h1, h2, h3]
      | some room => simp only [leaveRoom, h1, h2, h3]

theorem leaveRoom_openWs (s : ServerState) (ws : Nat) :
    (leaveRoom s ws).1.openWs = s.openWs := by
  cases h1 : lookupWs s.clients ws with
  | none => simp only [leaveRoom, h1]
  | some m =>
    cases h2 : m.roomId with
    | none => simp only [leaveRoom, h1, h2]
    | some rid =>
      cases h3 : lookupRoom s.rooms rid with
      | none => simp only [leaveRoom, h1, h2, h3]
      | some room => simp only [leaveRoom, h1, h2, h3]

theorem leaveRoom_nextUid (s : ServerState) (ws : Nat) :
    (leaveRoom s ws).1.nextUid = s.nextUid := by
  cases h1 : lookupWs s.clients ws with
  | none => simp only [leaveRoom, h1]
  | some m =>
    cases h2 : m.roomId with
    | none => simp only [leaveRoom, h1, h2]
    | some rid =>
      cases h3 : lookupRoom s.rooms rid with
      | none => simp only [leaveRoom, h1, h2, h3]
      | some room => simp only [leaveRoom, h1, h2, h3]

theorem leaveRoom_clients_fst (s : ServerState) (ws : Nat) :
    (leaveRoom s ws).1.clients.map Prod.fst = s.clients.map Prod.fst := by
  cases h1 : lookupWs s.clients ws with
  | none => simp only [leaveRoom, h1]
  | some m =>
    cases h2 : m.roomId with
    | none => simp only [leaveRoom, h1, h2]
    | some rid =>
      cases h3 : lookupRoom s.rooms rid with
      | none =>
        simp only [leaveRoom, h1, h2, h3]
        exact setMeta_fst _ _ _
      | some room =>
        simp only [leaveRoom, h1, h2, h3]
        rw [setMeta_fst]
        by_cases ho : isOpen s (if room.a = ws then room.b else room.a) = true
        · rw [if_pos ho, setMeta_fst]
        · rw [if_neg ho]

theorem leaveRoom_rooms_sub (s : ServerState) (ws : Nat) :
    ∀ p ∈ (leaveRoom s ws).1.rooms, p ∈ s.rooms := by
  cases h1 : lookupWs s.clients ws with
  | none => simp only [leaveRoom, h1]; exact fun p hp => hp
  | some m =>
    cases h2 : m.roomId with
    | none => simp only [leaveRoom, h1, h2]; exact fun p hp => hp
    | some rid =>
      cases h3 : lookupRoom s.rooms rid with
      | none =>
        simp only [leaveRoom, h1, h2, h3]
        exact fun p hp => hp
      | some room =>
        simp only [leaveRoom, h1, h2, h3]
        exact fun p hp => (mem_eraseRoom _ _ _ hp).1

theorem serverInv_setMeta_keep (s : ServerState) (ws : Nat) (f : Meta → Meta)
    (h : ServerInv s)
    (hroom : ∀ m, (f m).roomId = m.roomId)
    (hstate : ∀ m, (f m).state = "idle" ∨ (f m).state = "searching" ∨ (f m).state = "chat") :
    ServerInv { s with clients := setMeta s.clients ws f } := by
  constructor
  · intro p hp
    rcases mem_setMeta _ _ _ p hp with h1 | ⟨m, _, rfl⟩
    · exact h.statesOK p h1
    · exact hstate m
  · exact h.queueNodup
  · exact h.roomKeysNodup
  · exact h.roomKeysLt
  · show ((setMeta s.clients ws f).map Prod.fst).Nodup
    rw [setMeta_fst]; exact h.clientKeysNodup
  · intro e he
    show (lookupWs (setMeta s.clients ws f) e.ws).isSome = true
    rw [lookupWs_isSome_setMeta]; exact h.queueReg e he
  · intro p hp ws2 hmem
    obtain ⟨m2, hm2, hrid⟩ := h.roomMeta p hp ws2 hmem
    by_cases hw : ws2 = ws
    · subst hw
      refine ⟨f m2, ?_, ?_⟩
      · show lookupWs (setMeta s.clients ws2 f) ws2 = some (f m2)
        rw [lookupWs_setMeta_self, hm2]; rfl
      · rw [hroom]; exact hrid
    · refine ⟨m2, ?_, hrid⟩
      show lookupWs (setMeta s.clients ws f) ws2 = some m2
      rw [lookupWs_setMeta_ne _ _ _ _ hw]; exact hm2
  · intro p hp rid room hrid hlook
    rcases mem_setMeta _ _ _ p hp with h1 | ⟨m, hm, rfl⟩
    · exact h.roomIdSound p h1 rid room hrid hlook
    · have hm2 : m.roomId = some rid := by rw [← hroom m]; exact hrid
      exact h.roomIdSound (ws, m) hm rid room hm2 hlook
  · intro p hp rid hrid
    rcases mem_setMeta _ _ _ p hp with h1 | ⟨m, hm, rfl⟩
    · exact h.roomIdLt p h1 rid hrid
    · have hm2 : m.roomId = some rid := by rw [← hroom m]; exact hrid
      exact h.roomIdLt (ws, m) hm rid hm2
  · exact h.mutEx

theorem serverInv_setMeta_reset (s : ServerState) (ws : Nat) (h : ServerInv s)
    (hnr : ¬ InRoom s ws) :
    ServerInv { s with clients := setMeta s.clients ws (fun m2 => { m2 with roomId := none, state := "idle" }) } := by
  constructor
  · intro p hp
    replace hp : p ∈ setMeta s.clients ws (fun m2 => { m2 with roomId := none, state := "idle" }) := hp
    rcases mem_setMeta _ _ _ p hp with h1 | ⟨m, _, rfl⟩
    · exact h.statesOK p h1
    · exact Or.inl rfl
  · exact h.queueNodup
  · exact h.roomKeysNodup
  · exact h.roomKeysLt
  · show ((setMeta s.clients ws (fun m2 => { m2 with roomId := none, state := "idle" })).map Prod.fst).Nodup
    rw [setMeta_fst]; exact h.clientKeysNodup
  · intro e he
    show (lookupWs (setMeta s.clients ws (fun m2 => { m2 with roomId := none, state := "idle" })) e.ws).isSome = true
    rw [lookupWs_isSome_setMeta]; exact h.queueReg e he
  · intro p hp ws2 hmem
    obtain ⟨m2, hm2, hrid⟩ := h.roomMeta p hp ws2 hmem
    have hw : ws2 ≠ ws := by
      intro he
      exact hnr ⟨p, hp, he ▸ hmem⟩
    refine ⟨m2, ?_, hrid⟩
    show lookupWs (setMeta s.clients ws (fun m2 => { m2 with roomId := none, state := "idle" })) ws2 = some m2
    rw [lookupWs_setMeta_ne _ _ _ _ hw]; exact hm2
  · intro p hp rid room hrid hlook
    replace hp : p ∈ setMeta s.clients ws (fun m2 => { m2 with roomId := none, state := "idle" }) := hp
    rcases mem_setMeta _ _ _ p hp with h1 | ⟨m, hm, rfl⟩
    · exact h.roomIdSound p h1 rid room hrid hlook
    · cases hrid
  · intro p hp rid hrid
    replace hp : p ∈ setMeta s.clients ws (fun m2 => { m2 with roomId := none, state := "idle" }) := hp
    rcases mem_setMeta _ _ _ p hp with h1 | ⟨m, hm, rfl⟩
    · exact h.roomIdLt p h1 rid hrid
    · cases hrid
  · exact h.mutEx

theorem serverInv_queue_sublist (s : ServerState) (q2 : List Entry) (h : ServerInv s)
    (hs : q2.Sublist s.queue) : ServerInv { s with queue := q2 } := by
  constructor
  · exact h.statesOK
  · exact List.Nodup.sublist (hs.map Entry.ws) h.queueNodup
  · exact h.roomKeysNodup
  · exact h.roomKeysLt
  · exact h.clientKeysNodup
  · intro e he
    exact h.queueReg e (hs.subset he)
  · exact h.roomMeta
  · exact h.roomIdSound
  · exact h.roomIdLt
  · intro ws hq
    obtain ⟨⟨e, he, hew⟩, hr⟩ := hq
    exact h.mutEx ws ⟨⟨e, hs.subset he, hew⟩, hr⟩

theorem serverInv_eraseRoom (s : ServerState) (rid : Nat) (h : ServerInv s) :
    ServerInv { s with rooms := eraseRoom s.rooms rid } := by
  constructor
  · exact h.statesOK
  · exact h.queueNodup
  · exact List.Nodup.sublist (eraseRoom_fst_sublist s.rooms rid) h.roomKeysNodup
  · intro p hp
    exact h.roomKeysLt p (mem_eraseRoom _ _ _ hp).1
  · exact h.clientKeysNodup
  · exact h.queueReg
  · intro p hp ws2 hmem
    exact h.roomMeta p (mem_eraseRoom _ _ _ hp).1 ws2 hmem
  · intro p hp rid2 room2 hrid2 hlook
    replace hlook : lookupRoom (eraseRoom s.rooms rid) rid2 = some room2 := hlook
    by_cases he : rid2 = rid
    · subst he
      rw [lookupRoom_eraseRoom_self] at hlook
      cases hlook
    · rw [lookupRoom_eraseRoom_ne _ _ _ he] at hlook
      exact h.roomIdSound p hp rid2 room2 hrid2 hlook
  · exact h.roomIdLt
  · intro ws2 hq
    obtain ⟨hin, p, hp, hmem⟩ := hq
    exact h.mutEx ws2 ⟨hin, p, (mem_eraseRoom _ _ _ hp).1, hmem⟩

theorem serverInv_leaveRoom (s : ServerState) (ws : Nat) (h : ServerInv s) :
    ServerInv (leaveRoom s ws).1 := by
  cases h1 : lookupWs s.clients ws with
  | none => rw [leaveRoom_eq_of_none s ws h1]; exact h
  | some m =>
    cases h2 : m.roomId with
    | none => rw [leaveRoom_eq_of_noRoomId s ws m h1 h2]; exact h
    | some rid =>
      cases h3 : lookupRoom s.rooms rid with
      | none =>
        rw [leaveRoom_eq_of_staleRoom s ws m rid h1 h2 h3]
        refine serverInv_setMeta_reset s ws h ?_
        rintro ⟨p, hp, hmem⟩
        obtain ⟨m2, hm2, hrid2⟩ := h.roomMeta p hp ws hmem
        rw [h1] at hm2
        injection hm2 with hm2
        subst hm2
        rw [h2] at hrid2
        injection hrid2 with hrid2
        obtain ⟨r2, hr2⟩ := lookupRoom_isSome_of_mem s.rooms p.1 p.2 hp
        rw [← hrid2] at hr2
        rw [h3] at hr2
        cases hr2
      | some room =>
        rw [leaveRoom_eq_of_room s ws m rid room h1 h2 h3]
        have hmem_room := lookupRoom_mem s.rooms rid room h3
        have hws : ws = room.a ∨ ws = room.b :=
          h.roomIdSound (ws, m) (lookupWs_mem _ _ _ h1) rid room h2 h3
        have hoth : (if room.a = ws then room.b else room.a) = room.a ∨
            (if room.a = ws then room.b else room.a) = room.b := by
          by_cases hb : room.a = ws <;> simp [hb]
        have ht1 : ServerInv { s with rooms := eraseRoom s.rooms rid } :=
          serverInv_eraseRoom s rid h
        have hnr : ∀ x, (x = room.a ∨ x = room.b) →
            ¬ InRoom { s with rooms := eraseRoom s.rooms rid } x := by
          rintro x hx ⟨p, hp, hmem⟩
          replace hp : p ∈ eraseRoom s.rooms rid := hp
          obtain ⟨hp2, hpne⟩ := mem_eraseRoom _ _ _ hp
          obtain ⟨m2, hm2, hrid2⟩ := h.roomMeta p hp2 x hmem
          obtain ⟨m3, hm3, hrid3⟩ := h.roomMeta (rid, room) hmem_room x hx
          rw [hm2] at hm3
          injection hm3 with hm3
          subst hm3
          rw [hrid2] at hrid3
          injection hrid3 with hrid3
          exact hpne hrid3
        by_cases ho : isOpen s (if room.a = ws then room.b else room.a) = true
        · rw [if_pos ho]
          have ht2 := serverInv_setMeta_reset { s with rooms := eraseRoom s.rooms rid }
            (if room.a = ws then room.b else room.a) ht1 (hnr _ hoth)
          have ht3 := serverInv_setMeta_reset
            { s with rooms := eraseRoom s.rooms rid,
                     clients := setMeta s.clients (if room.a = ws then room.b else room.a) (fun m2 => { m2 with roomId := none, state := "idle" }) }
            ws ht2 (hnr ws hws)
          exact ht3
        · rw [if_neg ho]
          exact serverInv_setMeta_reset { s with rooms := eraseRoom s.rooms rid } ws ht1 (hnr ws hws)

theorem leaveRoom_not_inRoom (s : ServerState) (ws : Nat) (h : ServerInv s) :
    ¬ InRoom (leaveRoom s ws).1 ws := by
  cases h1 : lookupWs s.clients ws with
  | none =>
    rw [leaveRoom_eq_of_none s ws h1]
    rintro ⟨p, hp, hmem⟩
    obtain ⟨m2, hm2, _⟩ := h.roomMeta p hp ws hmem
    rw [h1] at hm2
    cases hm2
  | some m =>
    cases h2 : m.roomId with
    | none =>
      rw [leaveRoom_eq_of_noRoomId s ws m h1 h2]
      rintro ⟨p, hp, hmem⟩
      obtain ⟨m2, hm2, hrid2⟩ := h.roomMeta p hp ws hmem
      rw [h1] at hm2
      injection hm2 with hm2
      subst hm2
      rw [h2] at hrid2
      cases hrid2
    | some rid =>
      cases h3 : lookupRoom s.rooms rid with
      | none =>
        rw [leaveRoom_eq_of_staleRoom s ws m rid h1 h2 h3]
        rintro ⟨p, hp, hmem⟩
        replace hp : p ∈ s.rooms := hp
        obtain ⟨m2, hm2, hrid2⟩ := h.roomMeta p hp ws hmem
        rw [h1] at hm2
        injection hm2 with hm2
        subst hm2
        rw [h2] at hrid2
        injection hrid2 with hrid2
        obtain ⟨r2, hr2⟩ := lookupRoom_isSome_of_mem s.rooms p.1 p.2 hp
        rw [← hrid2] at hr2
        rw [h3] at hr2
        cases hr2
      | some room =>
        rw [leaveRoom_eq_of_room s ws m rid room h1 h2 h3]
        have hmem_room := lookupRoom_mem s.rooms rid room h3
        rintro ⟨p, hp, hmem⟩
        replace hp : p ∈ eraseRoom s.rooms rid := hp
        obtain ⟨hp2, hpne⟩ := mem_eraseRoom _ _ _ hp
        obtain ⟨m2, hm2, hrid2⟩ := h.roomMeta p hp2 ws hmem
        rw [h1] at hm2
        injection hm2 with hm2
        subst hm2
        rw [h2] at hrid2
        injection hrid2 with hrid2
        exact hpne hrid2.symm

theorem leaveRoom_roomId_none (s : ServerState) (ws : Nat) :
    ∀ m2, lookupWs (leaveRoom s ws).1.clients ws = some m2 → m2.roomId = none := by
  cases h1 : lookupWs s.clients ws with
  | none =>
    rw [leaveRoom_eq_of_none s ws h1]
    intro m2 hm2
    rw [h1] at hm2
    cases hm2
  | some m =>
    cases h2 : m.roomId with
    | none =>
      rw [leaveRoom_eq_of_noRoomId s ws m h1 h2]
      intro m2 hm2
      rw [h1] at hm2
      injection hm2 with hm2
      subst hm2
      exact h2
    | some rid =>
      cases h3 : lookupRoom s.rooms rid with
      | none =>
        rw [leaveRoom_eq_of_staleRoom s ws m rid h1 h2 h3]
        intro m2 hm2
        replace hm2 : lookupWs (setMeta s.clients ws (fun m3 => { m3 with roomId := none, state := "idle" })) ws = some m2 := hm2
        rw [lookupWs_setMeta_self, h1] at hm2
        injection hm2 with hm2
        subst hm2
        rfl
      | some room =>
        rw [leaveRoom_eq_of_room s ws m rid room h1 h2 h3]
        intro m2 hm2
        replace hm2 : lookupWs (setMeta
          (if isOpen s (if room.a = ws then room.b else room.a) then setMeta s.clients (if room.a = ws then room.b else room.a) (fun m3 => { m3 with roomId := none, state := "idle" }) else s.clients)
          ws (fun m3 => { m3 with roomId := none, state := "idle" })) ws = some m2 := hm2
        rw [lookupWs_setMeta_self] at hm2
        cases hl : lookupWs (if isOpen s (if room.a = ws then room.b else room.a) then setMeta s.clients (if room.a = ws then room.b else room.a) (fun m3 => { m3 with roomId := none, state := "idle" }) else s.clients) ws with
        | none => rw [hl] at hm2; cases hm2
        | some mm =>
          rw [hl] at hm2
          injection hm2 with hm2
          subst hm2
          rfl

theorem tryMatch_eq_of_short (s : ServerState) (now : Nat) (h : s.queue.length < 2) :
    tryMatch s now = (s, []) := by
  simp only [tryMatch, if_pos h]

theorem tryMatch_eq_of_noBest (s : ServerState) (now : Nat)
    (h : pickBest s now = none) : tryMatch s now = (s, []) := by
  by_cases hlen : s.queue.length < 2
  · simp only [tryMatch, if_pos hlen]
  · simp only [tryMatch, if_neg hlen, h]

theorem tryMatch_eq_of_best (s : ServerState) (now : Nat) (b : Best) (A B : Entry)
    (hlen : ¬ s.queue.length < 2) (hb : pickBest s now = some b)
    (hA : s.queue[b.i]? = some A) (hB : s.queue[b.j]? = some B) :
    tryMatch s now =
      (let s2 : ServerState :=
        { s with
          queue := (s.queue.eraseIdx b.j).eraseIdx b.i,
          rooms := (s.nextUid, Room.mk A.ws B.ws) :: s.rooms,
          clients := setMeta (setMeta s.clients A.ws (fun m => { m with roomId := some s.nextUid, state := "chat" })) B.ws (fun m => { m with roomId := some s.nextUid, state := "chat" }),
          nextUid := s.nextUid + 1 }
       (s2, safeSend s2 B.ws (Msg.matched s.nextUid) (safeSend s2 A.ws (Msg.matched s.nextUid) []))) := by
  simp only [tryMatch, if_neg hlen, hb, hA, hB]

theorem tryMatch_match_facts (s : ServerState) (now : Nat) (b : Best)
    (hnd : (s.queue.map Entry.ws).Nodup) (hb : pickBest s now = some b) :
    ∃ A B, s.queue[b.i]? = some A ∧ s.queue[b.j]? = some B ∧ A.ws ≠ B.ws ∧
      (tryMatch s now).1.queue = (s.queue.eraseIdx b.j).eraseIdx b.i ∧
      s.queue.Perm (A :: B :: (tryMatch s now).1.queue) ∧
      (tryMatch s now).1.queue.length + 2 = s.queue.length ∧
      (tryMatch s now).1.rooms = (s.nextUid, Room.mk A.ws B.ws) :: s.rooms ∧
      lookupRoom (tryMatch s now).1.rooms s.nextUid = some (Room.mk A.ws B.ws) ∧
      (tryMatch s now).1.clients = setMeta (setMeta s.clients A.ws (fun m => { m with roomId := some s.nextUid, state := "chat" })) B.ws (fun m => { m with roomId := some s.nextUid, state := "chat" }) ∧
      (tryMatch s now).1.nextUid = s.nextUid + 1 ∧
      (tryMatch s now).1.openWs = s.openWs := by
  obtain ⟨hij, hjlen⟩ := pickBest_bounds s now b hb
  have hilen : b.i < s.queue.length := lt_trans hij hjlen
  have hA : s.queue[b.i]? = some (s.queue[b.i]) := List.getElem?_eq_some.2 ⟨hilen, rfl⟩
  have hB : s.queue[b.j]? = some (s.queue[b.j]) := List.getElem?_eq_some.2 ⟨hjlen, rfl⟩
  have hlen : ¬ s.queue.length < 2 := by omega
  have heq := tryMatch_eq_of_best s now b (s.queue[b.i]) (s.queue[b.j]) hlen hb hA hB
  have hilen2 : b.i < (s.queue.eraseIdx b.j).length := by
    rw [List.length_eraseIdx_of_lt hjlen]; omega
  have hgete : (s.queue.eraseIdx b.j)[b.i] = s.queue[b.i] := by
    rw [List.getElem_eraseIdx]
    simp [hij]
  have hperm : s.queue.Perm ((s.queue[b.i]) :: (s.queue[b.j]) :: (s.queue.eraseIdx b.j).eraseIdx b.i) := by
    have h1 : s.queue.Perm ((s.queue[b.j]) :: s.queue.eraseIdx b.j) :=
      perm_cons_eraseIdx s.queue b.j hjlen
    have h2 : (s.queue.eraseIdx b.j).Perm ((s.queue[b.i]) :: (s.queue.eraseIdx b.j).eraseIdx b.i) := by
      have := perm_cons_eraseIdx (s.queue.eraseIdx b.j) b.i hilen2
      rwa [hgete] at this
    have h3 := h1.trans (h2.cons (s.queue[b.j]))
    exact h3.trans (List.Perm.swap _ _ _)
  have hne : (s.queue[b.i]).ws ≠ (s.queue[b.j]).ws := by
    intro he
    have hmap : (s.queue.map Entry.ws).Nodup := hnd
    have hlb : b.i < (s.queue.map Entry.ws).length := by simpa using hilen
    have hlb2 : b.j < (s.queue.map Entry.ws).length := by simpa using hjlen
    have hg1 : (s.queue.map Entry.ws)[b.i] = (s.queue[b.i]).ws := by
      simp
    have hg2 : (s.queue.map Entry.ws)[b.j] = (s.queue[b.j]).ws := by
      simp
    have heq2 : (s.queue.map Entry.ws)[b.i] = (s.queue.map Entry.ws)[b.j] := by
      rw [hg1, hg2, he]
    have := (List.Nodup.getElem_inj_iff hmap).1 heq2
    omega
  refine ⟨s.queue[b.i], s.queue[b.j], hA, hB, hne, ?_, ?_, ?_, ?_, ?_, ?_, ?_, ?_⟩
  · rw [heq]
  · rw [heq]; exact hperm
  · rw [heq]
    have := hperm.length_eq
    simp at this
    simp
    omega
  · rw [heq]
  · rw [heq]
    simp [lookupRoom]
  · rw [heq]
  · rw [heq]
  · rw [heq]

theorem serverInv_tryMatch (s : ServerState) (now : Nat) (h : ServerInv s) :
    ServerInv (tryMatch s now).1 := by
  by_cases hlen : s.queue.length < 2
  · rw [tryMatch_eq_of_short s now hlen]; exact h
  · cases hb : pickBest s now with
    | none => rw [tryMatch_eq_of_noBest s now hb]; exact h
    | some b =>
      obtain ⟨A, B, hA, hB, hne, hq, hperm, hlen2, hrooms, hlook0, hclients, huid, hopen⟩ :=
        tryMatch_match_facts s now b h.queueNodup hb
      have hAmem : A ∈ s.queue := by
        obtain ⟨hlt, hEq⟩ := List.getElem?_eq_some.1 hA
        rw [← hEq]; exact List.getElem_mem _
      have hBmem : B ∈ s.queue := by
        obtain ⟨hlt, hEq⟩ := List.getElem?_eq_some.1 hB
        rw [← hEq]; exact List.getElem_mem _
      have hsub : ((tryMatch s now).1.queue).Sublist s.queue := by
        rw [hq]
        exact (List.eraseIdx_sublist _ b.i).trans (List.eraseIdx_sublist _ b.j)
      obtain ⟨mA, hmA⟩ : ∃ mA, lookupWs s.clients A.ws = some mA :=
        Option.isSome_iff_exists.1 (h.queueReg A hAmem)
      obtain ⟨mB, hmB⟩ : ∃ mB, lookupWs s.clients B.ws = some mB :=
        Option.isSome_iff_exists.1 (h.queueReg B hBmem)
      have hndAB : (A.ws :: B.ws :: (tryMatch s now).1.queue.map Entry.ws).Nodup := by
        have h6 : (s.queue.map Entry.ws).Perm ((A :: B :: (tryMatch s now).1.queue).map Entry.ws) :=
          hperm.map _
        have h7 := h6.nodup_iff.1 h.queueNodup
        simpa using h7
      have hAnotin : A.ws ∉ (tryMatch s now).1.queue.map Entry.ws := by
        intro hm
        exact (List.nodup_cons.1 hndAB).1 (List.mem_cons_of_mem _ hm)
      have hBnotin : B.ws ∉ (tryMatch s now).1.queue.map Entry.ws := by
        intro hm
        exact (List.nodup_cons.1 (List.nodup_cons.1 hndAB).2).1 hm
      constructor
      · intro p hp
        rw [hclients] at hp
        rcases mem_setMeta _ _ _ p hp with h1 | ⟨m2, _, rfl⟩
        · rcases mem_setMeta _ _ _ p h1 with h2 | ⟨m3, _, rfl⟩
          · exact h.statesOK p h2
          · exact Or.inr (Or.inr rfl)
        · exact Or.inr (Or.inr rfl)
      · exact List.Nodup.sublist (hsub.map _) h.queueNodup
      · rw [hrooms]
        simp only [List.map_cons]
        refine List.nodup_cons.2 ⟨?_, h.roomKeysNodup⟩
        intro hmem
        rcases List.mem_map.1 hmem with ⟨p, hp, hpe⟩
        have := h.roomKeysLt p hp
        omega
      · intro p hp
        rw [hrooms] at hp
        rw [huid]
        rcases List.mem_cons.1 hp with h1 | h1
        · rw [h1]; exact Nat.lt_succ_self _
        · exact lt_trans (h.roomKeysLt p h1) (Nat.lt_succ_self _)
      · show ((tryMatch s now).1.clients.map Prod.fst).Nodup
        rw [hclients, setMeta_fst, setMeta_fst]
        exact h.clientKeysNodup
      · intro e he
        show (lookupWs (tryMatch s now).1.clients e.ws).isSome = true
        rw [hclients, lookupWs_isSome_setMeta, lookupWs_isSome_setMeta]
        exact h.queueReg e (hsub.subset he)
      · intro p hp ws2 hmem
        rw [hrooms] at hp
        rcases List.mem_cons.1 hp with h1 | h1
        · subst h1
          rcases hmem with h2 | h2
          · replace h2 : ws2 = A.ws := h2
            subst h2
            refine ⟨{ mA with roomId := some s.nextUid, state := "chat" }, ?_, rfl⟩
            rw [hclients, lookupWs_setMeta_ne _ _ _ _ hne, lookupWs_setMeta_self, hmA]
            rfl
          · replace h2 : ws2 = B.ws := h2
            subst h2
            refine ⟨{ mB with roomId := some s.nextUid, state := "chat" }, ?_, rfl⟩
            rw [hclients, lookupWs_setMeta_self,
              lookupWs_setMeta_ne _ _ _ _ (fun he => hne he.symm), hmB]
            rfl
        · obtain ⟨m2, hm2, hrid2⟩ := h.roomMeta p h1 ws2 hmem
          have hwa : ws2 ≠ A.ws := by
            intro he
            exact h.mutEx A.ws ⟨⟨A, hAmem, rfl⟩, ⟨p, h1, he ▸ hmem⟩⟩
          have hwb : ws2 ≠ B.ws := by
            intro he
            exact h.mutEx B.ws ⟨⟨B, hBmem, rfl⟩, ⟨p, h1, he ▸ hmem⟩⟩
          refine ⟨m2, ?_, hrid2⟩
          rw [hclients, lookupWs_setMeta_ne _ _ _ _ hwb, lookupWs_setMeta_ne _ _ _ _ hwa]
          exact hm2
      · intro p hp rid room hrid hlook
        rw [hclients] at hp
        replace hlook : lookupRoom (tryMatch s now).1.rooms rid = some room := hlook
        rw [hrooms] at hlook
        rcases mem_setMeta _ _ _ p hp with h1 | ⟨m2, hm2, rfl⟩
        · rcases mem_setMeta _ _ _ p h1 with h2 | ⟨m3, hm3, rfl⟩
          · have hlt := h.roomIdLt p h2 rid hrid
            have hneid : s.nextUid ≠ rid := by omega
            simp only [lookupRoom] at hlook
            rw [if_neg hneid] at hlook
            exact h.roomIdSound p h2 rid room hrid hlook
          · have h4 : some s.nextUid = some rid := hrid
            injection h4 with h4
            subst h4
            simp only [lookupRoom, ite_true] at hlook
            injection hlook with h5
            subst h5
            left; rfl
        · have h4 : some s.nextUid = some rid := hrid
          injection h4 with h4
          subst h4
          simp only [lookupRoom, ite_true] at hlook
          injection hlook with h5
          subst h5
          right; rfl
      · intro p hp rid hrid
        rw [hclients] at hp
        rw [huid]
        rcases mem_setMeta _ _ _ p hp with h1 | ⟨m2, hm2, rfl⟩
        · rcases mem_setMeta _ _ _ p h1 with h2 | ⟨m3, hm3, rfl⟩
          · exact lt_trans (h.roomIdLt p h2 rid hrid) (Nat.lt_succ_self _)
          · have h4 : some s.nextUid = some rid := hrid
            injection h4 with h4
            rw [← h4]
            exact Nat.lt_succ_self _
        · have h4 : some s.nextUid = some rid := hrid
          injection h4 with h4
          rw [← h4]
          exact Nat.lt_succ_self _
      · intro ws2 hc
        obtain ⟨⟨e, he, hew⟩, p, hp, hmem⟩ := hc
        rw [hrooms] at hp
        rcases List.mem_cons.1 hp with h1 | h1
        · subst h1
          have hmq : ws2 ∈ (tryMatch s now).1.queue.map Entry.ws :=
            List.mem_map.2 ⟨e, he, hew⟩
          rcases hmem with h2 | h2
          · replace h2 : ws2 = A.ws := h2
            subst h2
            exact hAnotin hmq
          · replace h2 : ws2 = B.ws := h2
            subst h2
            exact hBnotin hmq
        · exact h.mutEx ws2 ⟨⟨e, hsub.subset he, hew⟩, p, h1, hmem⟩

theorem lookupWs_cons (a : Nat) (m : Meta) (r : List (Nat × Meta)) (k : Nat) :
    lookupWs ((a, m) :: r) k = if a = k then some m else lookupWs r k := rfl

theorem lookupWs_isSome_iff_mem (c : List (Nat × Meta)) (k : Nat) :
    (lookupWs c k).isSome = true ↔ k ∈ c.map Prod.fst := by
  constructor
  · intro hs
    obtain ⟨m, hm⟩ := Option.isSome_iff_exists.1 hs
    exact List.mem_map.2 ⟨(k, m), lookupWs_mem c k m hm, rfl⟩
  · intro hm
    cases hl : lookupWs c k with
    | none => exact absurd ((lookupWs_eq_none_iff c k).1 hl) (fun hn => hn hm)
    | some m => rfl

theorem serverInv_openWs (s : ServerState) (l : List Nat) (h : ServerInv s) :
    ServerInv { s with openWs := l } := by
  constructor
  · exact h.statesOK
  · exact h.queueNodup
  · exact h.roomKeysNodup
  · exact h.roomKeysLt
  · exact h.clientKeysNodup
  · exact h.queueReg
  · exact h.roomMeta
  · exact h.roomIdSound
  · exact h.roomIdLt
  · exact h.mutEx

theorem serverInv_enqueue (s : ServerState) (e0 : Entry) (h : ServerInv s)
    (hreg : (lookupWs s.clients e0.ws).isSome = true)
    (hnq : ¬ InQueue s e0.ws) (hnr : ¬ InRoom s e0.ws) :
    ServerInv { s with queue := s.queue ++ [e0] } := by
  have hnotin : e0.ws ∉ s.queue.map Entry.ws := by
    intro hm
    rcases List.mem_map.1 hm with ⟨e2, he2, hee⟩
    exact hnq ⟨e2, he2, hee⟩
  constructor
  · exact h.statesOK
  · rw [List.map_append]
    refine List.nodup_append.2 ⟨h.queueNodup, List.nodup_singleton _, ?_⟩
    intro x hx hx2
    simp only [List.map_cons, List.map_nil, List.mem_singleton] at hx2
    rw [hx2] at hx
    exact hnotin hx
  · exact h.roomKeysNodup
  · exact h.roomKeysLt
  · exact h.clientKeysNodup
  · intro e he
    rcases List.mem_append.1 he with h1 | h1
    · exact h.queueReg e h1
    · rw [List.mem_singleton.1 h1]
      exact hreg
  · exact h.roomMeta
  · exact h.roomIdSound
  · exact h.roomIdLt
  · intro ws2 hc
    obtain ⟨⟨e, he, hew⟩, hr⟩ := hc
    rcases List.mem_append.1 he with h1 | h1
    · exact h.mutEx ws2 ⟨⟨e, h1, hew⟩, hr⟩
    · rw [List.mem_singleton.1 h1] at hew
      exact hnr (hew.symm ▸ hr)

theorem serverInv_unregister (s : ServerState) (ws : Nat) (h : ServerInv s)
    (hnq : ¬ InQueue s ws) (hnr : ¬ InRoom s ws) :
    ServerInv { s with clients := s.clients.filter (fun p => p.1 ≠ ws) } := by
  constructor
  · intro p hp
    exact h.statesOK p (List.mem_filter.1 hp).1
  · exact h.queueNodup
  · exact h.roomKeysNodup
  · exact h.roomKeysLt
  · exact List.Nodup.sublist ((List.filter_sublist _).map _) h.clientKeysNodup
  · intro e he
    have hne : e.ws ≠ ws := by
      intro hee
      exact hnq ⟨e, he, hee⟩
    show (lookupWs (s.clients.filter (fun p => p.1 ≠ ws)) e.ws).isSome = true
    rw [lookupWs_filter_ne _ _ _ hne]
    exact h.queueReg e he
  · intro p hp ws2 hmem
    obtain ⟨m2, hm2, hrid⟩ := h.roomMeta p hp ws2 hmem
    have hne : ws2 ≠ ws := by
      intro hee
      rw [hee] at hmem
      exact hnr ⟨p, hp, hmem⟩
    refine ⟨m2, ?_, hrid⟩
    show lookupWs (s.clients.filter (fun p => p.1 ≠ ws)) ws2 = some m2
    rw [lookupWs_filter_ne _ _ _ hne]
    exact hm2
  · intro p hp rid room hrid hlook
    exact h.roomIdSound p (List.mem_filter.1 hp).1 rid room hrid hlook
  · intro p hp rid hrid
    exact h.roomIdLt p (List.mem_filter.1 hp).1 rid hrid
  · exact h.mutEx

theorem serverInv_init : ServerInv initState := by
  constructor
  · intro p hp; cases hp
  · exact List.nodup_nil
  · exact List.nodup_nil
  · intro p hp; cases hp
  · exact List.nodup_nil
  · intro e he; cases he
  · intro p hp; cases hp
  · intro p hp; cases hp
  · intro p hp; cases hp
  · rintro ws ⟨⟨e, he, _⟩, _⟩; cases he

theorem serverInv_step (s : ServerState) (e : Event) (h : ServerInv s) (hg : Guard s e) :
    ServerInv (stepF s e).1 := by
  cases e with
  | connect ws =>
    obtain ⟨hnone, hnopen, hnq, hnr⟩ := hg
    have hkeys : ws ∉ s.clients.map Prod.fst := (lookupWs_eq_none_iff _ _).1 hnone
    constructor
    · intro p hp
      rcases List.mem_cons.1 hp with h1 | h1
      · rw [h1]; exact Or.inl rfl
      · exact h.statesOK p h1
    · exact h.queueNodup
    · exact h.roomKeysNodup
    · intro p hp
      exact lt_trans (h.roomKeysLt p hp) (Nat.lt_succ_self _)
    · show (((ws, (⟨s.nextUid, none, "idle", ⟨"any", "any"⟩⟩ : Meta)) :: s.clients).map Prod.fst).Nodup
      simp only [List.map_cons]
      exact List.nodup_cons.2 ⟨hkeys, h.clientKeysNodup⟩
    · intro e2 he2
      show (lookupWs ((ws, ⟨s.nextUid, none, "idle", ⟨"any", "any"⟩⟩) :: s.clients) e2.ws).isSome = true
      rw [lookupWs_cons]
      by_cases hw : ws = e2.ws
      · rw [if_pos hw]; rfl
      · rw [if_neg hw]; exact h.queueReg e2 he2
    · intro p hp ws2 hmem
      obtain ⟨m2, hm2, hrid⟩ := h.roomMeta p hp ws2 hmem
      have hne : ws ≠ ws2 := by
        intro hee
        rw [hee] at hnr
        exact hnr ⟨p, hp, hmem⟩
      refine ⟨m2, ?_, hrid⟩
      show lookupWs ((ws, ⟨s.nextUid, none, "idle", ⟨"any", "any"⟩⟩) :: s.clients) ws2 = some m2
      rw [lookupWs_cons, if_neg hne]
      exact hm2
    · intro p hp rid room hrid hlook
      rcases List.mem_cons.1 hp with h1 | h1
      · rw [h1] at hrid; cases hrid
      · exact h.roomIdSound p h1 rid room hrid hlook
    · intro p hp rid hrid
      rcases List.mem_cons.1 hp with h1 | h1
      · rw [h1] at hrid; cases hrid
      · exact lt_trans (h.roomIdLt p h1 rid hrid) (Nat.lt_succ_self _)
    · exact h.mutEx
  | msgFind ws now g l =>
    cases hlk : lookupWs s.clients ws with
    | none => simp only [stepF, hlk]; exact h
    | some m0 =>
      simp only [stepF, hlk]
      have hI1 : ServerInv (leaveRoom s ws).1 := serverInv_leaveRoom s ws h
      have hI2 : ServerInv { (leaveRoom s ws).1 with queue := removeFromQueue (leaveRoom s ws).1.queue ws } :=
        serverInv_queue_sublist _ _ hI1 (removeFromQueue_sublist _ _)
      have hI3 := serverInv_setMeta_keep
        { (leaveRoom s ws).1 with queue := removeFromQueue (leaveRoom s ws).1.queue ws }
        ws (fun m => { m with prefs := ⟨strOrAny g, strOrAny l⟩, state := "searching" })
        hI2 (fun m => rfl) (fun m => Or.inr (Or.inl rfl))
      have hreg : (lookupWs (setMeta (leaveRoom s ws).1.clients ws (fun m => { m with prefs := ⟨strOrAny g, strOrAny l⟩, state := "searching" })) ws).isSome = true := by
        rw [lookupWs_isSome_setMeta, lookupWs_isSome_iff_mem, leaveRoom_clients_fst]
        exact (lookupWs_isSome_iff_mem _ _).1 (by rw [hlk]; rfl)
      have hnq2 : ∀ e2 ∈ removeFromQueue (leaveRoom s ws).1.queue ws, e2.ws ≠ ws := by
        rw [leaveRoom_queue]
        exact removeFromQueue_not_mem s.queue ws h.queueNodup
      have hI4 := serverInv_enqueue
        { (leaveRoom s ws).1 with
            queue := removeFromQueue (leaveRoom s ws).1.queue ws,
            clients := setMeta (leaveRoom s ws).1.clients ws (fun m => { m with prefs := ⟨strOrAny g, strOrAny l⟩, state := "searching" }) }
        ⟨ws, ⟨strOrAny g, strOrAny l⟩, now⟩ hI3 hreg
        (fun hc => by
          obtain ⟨e2, he2, hee⟩ := hc
          exact hnq2 e2 he2 hee)
        (fun hc => by
          obtain ⟨p, hp, hmem⟩ := hc
          exact leaveRoom_not_inRoom s ws h ⟨p, hp, hmem⟩)
      exact serverInv_tryMatch _ now hI4
  | msgCancel ws =>
    cases hlk : lookupWs s.clients ws with
    | none => simp only [stepF, hlk]; exact h
    | some m0 =>
      simp only [stepF, hlk]
      have hI1 : ServerInv { s with queue := removeFromQueue s.queue ws } :=
        serverInv_queue_sublist _ _ h (removeFromQueue_sublist _ _)
      exact serverInv_setMeta_keep { s with queue := removeFromQueue s.queue ws } ws
        (fun m => { m with state := "idle" }) hI1 (fun m => rfl) (fun m => Or.inl rfl)
  | msgChat ws text =>
    cases hlk : lookupWs s.clients ws with
    | none => simp only [stepF, hlk]; exact h
    | some m0 =>
      cases hrid : m0.roomId with
      | none => simp only [stepF, hlk, hrid]; exact h
      | some rid =>
        cases hroom : lookupRoom s.rooms rid with
        | none => simp only [stepF, hlk, hrid, hroom]; exact h
        | some room =>
          by_cases ho : isOpen s (if room.a = ws then room.b else room.a) = true
          · simp only [stepF, hlk, hrid, hroom, ho, if_true]
            exact h
          · have hof : isOpen s (if room.a = ws then room.b else room.a) = false := by
              cases hv : isOpen s (if room.a = ws then room.b else room.a)
              · rfl
              · exact absurd hv ho
            simp only [stepF, hlk, hrid, hroom, hof, Bool.false_eq_true, if_false]
            exact serverInv_leaveRoom s ws h
  | msgLeave ws =>
    cases hlk : lookupWs s.clients ws with
    | none => simp only [stepF, hlk]; exact h
    | some m0 =>
      simp only [stepF, hlk]
      have hI1 : ServerInv (leaveRoom s ws).1 := serverInv_leaveRoom s ws h
      have hI2 : ServerInv { (leaveRoom s ws).1 with queue := removeFromQueue (leaveRoom s ws).1.queue ws } :=
        serverInv_queue_sublist _ _ hI1 (removeFromQueue_sublist _ _)
      exact serverInv_setMeta_keep
        { (leaveRoom s ws).1 with queue := removeFromQueue (leaveRoom s ws).1.queue ws }
        ws (fun m => { m with state := "idle" }) hI2 (fun m => rfl) (fun m => Or.inl rfl)
  | drop ws =>
    exact serverInv_openWs s _ h
  | closed ws =>
    simp only [stepF]
    have hI1 : ServerInv { s with queue := removeFromQueue s.queue ws } :=
      serverInv_queue_sublist _ _ h (removeFromQueue_sublist _ _)
    have hI2 : ServerInv (leaveRoom { s with queue := removeFromQueue s.queue ws } ws).1 :=
      serverInv_leaveRoom _ ws hI1
    refine serverInv_unregister _ ws hI2 ?_ ?_
    · intro hc
      obtain ⟨e2, he2, hee⟩ := hc
      have hq2 : (leaveRoom { s with queue := removeFromQueue s.queue ws } ws).1.queue
          = removeFromQueue s.queue ws := leaveRoom_queue _ _
      rw [hq2] at he2
      exact removeFromQueue_not_mem s.queue ws h.queueNodup e2 he2 hee
    · exact leaveRoom_not_inRoom _ ws hI1
  | tick now =>
    simp only [stepF]
    have hI1 : ServerInv { s with queue := s.queue.filter (fun e2 => isOpen s e2.ws) } :=
      serverInv_queue_sublist _ _ h (List.filter_sublist _)
    exact serverInv_tryMatch _ now hI1

theorem reachable_serverInv (s : ServerState) (h : Reachable s) : ServerInv s := by
  induction h with
  | init => exact serverInv_init
  | step s2 e hr hg ih => exact serverInv_step s2 e ih hg

theorem tryMatch_queue_sublist (s : ServerState) (now : Nat) :
    ((tryMatch s now).1.queue).Sublist s.queue := by
  by_cases hlen : s.queue.length < 2
  · rw [tryMatch_eq_of_short s now hlen]
  · cases hb : pickBest s now with
    | none => rw [tryMatch_eq_of_noBest s now hb]
    | some b =>
      obtain ⟨hij, hjlen⟩ := pickBest_bounds s now b hb
      have hilen : b.i < s.queue.length := lt_trans hij hjlen
      have hA : s.queue[b.i]? = some (s.queue[b.i]) := List.getElem?_eq_some.2 ⟨hilen, rfl⟩
      have hB : s.queue[b.j]? = some (s.queue[b.j]) := List.getElem?_eq_some.2 ⟨hjlen, rfl⟩
      rw [tryMatch_eq_of_best s now b _ _ hlen hb hA hB]
      exact (List.eraseIdx_sublist _ b.i).trans (List.eraseIdx_sublist _ b.j)

theorem tryMatch_rooms_length (s : ServerState) (now : Nat) :
    (tryMatch s now).1.rooms.length ≤ s.rooms.length + 1 := by
  by_cases hlen : s.queue.length < 2
  · rw [tryMatch_eq_of_short s now hlen]; exact Nat.le_succ _
  · cases hb : pickBest s now with
    | none => rw [tryMatch_eq_of_noBest s now hb]; exact Nat.le_succ _
    | some b =>
      obtain ⟨hij, hjlen⟩ := pickBest_bounds s now b hb
      have hilen : b.i < s.queue.length := lt_trans hij hjlen
      have hA : s.queue[b.i]? = some (s.queue[b.i]) := List.getElem?_eq_some.2 ⟨hilen, rfl⟩
      have hB : s.queue[b.j]? = some (s.queue[b.j]) := List.getElem?_eq_some.2 ⟨hjlen, rfl⟩
      rw [tryMatch_eq_of_best s now b _ _ hlen hb hA hB]
      exact Nat.le_refl _

theorem trA4_reachable : Reachable trA4 :=
  Reachable.step trA3 (.msgFind 11 0 none none)
    (Reachable.step trA2 (.msgFind 10 0 none none)
      (Reachable.step trA1 (.connect 11)
        (Reachable.step initState (.connect 10) Reachable.init (by decide))
        (by decide))
      (by decide))
    (by decide)

theorem trB5_reachable : Reachable trB5 :=
  Reachable.step trB4 (.msgFind 21 0 none none)
    (Reachable.step trB3 (.drop 20)
      (Reachable.step trB2 (.msgFind 20 0 none none)
        (Reachable.step trB1 (.connect 21)
          (Reachable.step initState (.connect 20) Reachable.init (by decide))
          (by decide))
        (by decide))
      (by decide))
    (by decide)

/-- C1: for every candidate pair evaluated by `tryMatch`, the score is
`total = base + waitBonus` with `base` computed exactly as the spec's
formula (`+2` equal genders, `+4` equal levels, `+1` either gender `any`,
`+1` either level `any`) and
`waitBonus = min(10, (waitSecondsA + waitSecondsB) / 6)`, wait seconds
being elapsed milliseconds since enqueue divided by 1000.  The hypotheses
that the stored preference strings are nonempty hold for every entry the
server ever enqueues (`find` replaces falsy fields by `"any"`). -/
theorem pairTotal_spec_formula (now : Nat) (A B : Entry)
    (h1 : A.prefs.gender ≠ "") (h2 : B.prefs.gender ≠ "")
    (h3 : A.prefs.level ≠ "") (h4 : B.prefs.level ≠ "") :
    pairTotal now A B = (specBase A.prefs B.prefs : ℚ) +
      min 10 ((((now : ℚ) - (A.enqueuedAt : ℚ)) / 1000 +
               ((now : ℚ) - (B.enqueuedAt : ℚ)) / 1000) / 6) := by
  have hbase : matchScore A.prefs B.prefs = specBase A.prefs B.prefs := by
    simp only [matchScore, specBase, orAny, if_neg h1, if_neg h2, if_neg h3, if_neg h4]
    split_ifs <;> omega
  show (matchScore A.prefs B.prefs : ℚ) + waitingBonus now A B = _
  rw [hbase, waitingBonus, waitSeconds, waitSeconds]

/-- Witness for C1 at concrete entries. -/
theorem pairTotal_spec_formula_witness :
    pairTotal 0 wE1 wE2 = (specBase wE1.prefs wE2.prefs : ℚ) +
      min 10 (((((0 : Nat) : ℚ) - (wE1.enqueuedAt : ℚ)) / 1000 +
               (((0 : Nat) : ℚ) - (wE2.enqueuedAt : ℚ)) / 1000) / 6) :=
  pairTotal_spec_formula 0 wE1 wE2 (by decide) (by decide) (by decide) (by decide)

/-- C9: `leaveRoom` is idempotent: a second call in succession returns
the state unchanged and emits no message (in particular no duplicate
`partner_left`), and `leaveRoom` on a connection with no room (or no
registry record) is a no-op. -/
theorem leaveRoom_idempotent (s : ServerState) (ws : Nat) :
    leaveRoom (leaveRoom s ws).1 ws = ((leaveRoom s ws).1, ([] : List (Nat × Msg))) ∧
    (lookupWs s.clients ws = none → leaveRoom s ws = (s, [])) ∧
    (∀ m, lookupWs s.clients ws = some m → m.roomId = none → leaveRoom s ws = (s, [])) := by
  refine ⟨?_, fun h => leaveRoom_eq_of_none s ws h,
    fun m h h2 => leaveRoom_eq_of_noRoomId s ws m h h2⟩
  cases h1 : lookupWs (leaveRoom s ws).1.clients ws with
  | none => exact leaveRoom_eq_of_none _ ws h1
  | some m2 =>
    exact leaveRoom_eq_of_noRoomId _ ws m2 h1 (leaveRoom_roomId_none s ws m2 h1)

/-- Witness for C9: idempotence after a real room teardown (`wsRoom`,
socket 1) and the no-room no-op (`wsPair`, socket 1). -/
theorem leaveRoom_idempotent_witness :
    leaveRoom (leaveRoom wsRoom 1).1 1 = ((leaveRoom wsRoom 1).1, ([] : List (Nat × Msg))) ∧
    leaveRoom wsPair 1 = (wsPair, []) :=
  ⟨(leaveRoom_idempotent wsRoom 1).1,
   (leaveRoom_idempotent wsPair 1).2.2 ⟨100, none, "searching", ⟨"any", "any"⟩⟩ rfl rfl⟩

/-- C10: when a connection leaves a room whose partner is still
registered but no longer open, the room is deleted and the leaver reset
to idle, while the partner's record is left entirely unchanged — its
state is not reset and it keeps its (now dangling) room reference; no
message is emitted. -/
theorem leaveRoom_dead_partner_frame (s : ServerState) (ws other : Nat) (m om : Meta)
    (rid : Nat) (room : Room)
    (hm : lookupWs s.clients ws = some m) (hr : m.roomId = some rid)
    (hroom : lookupRoom s.rooms rid = some room)
    (hoth : other = (if room.a = ws then room.b else room.a))
    (hne : other ≠ ws)
    (hclosed : isOpen s other = false)
    (hom : lookupWs s.clients other = some om)
    (homr : om.roomId = some rid) :
    lookupRoom (leaveRoom s ws).1.rooms rid = none ∧
    lookupWs (leaveRoom s ws).1.clients ws = some { m with roomId := none, state := "idle" } ∧
    lookupWs (leaveRoom s ws).1.clients other = some om ∧
    om.roomId = some rid ∧
    (leaveRoom s ws).2 = [] := by
  rw [leaveRoom_eq_of_room s ws m rid room hm hr hroom, ← hoth]
  rw [hclosed]
  simp only [Bool.false_eq_true, if_false]
  refine ⟨?_, ?_, ?_, homr, trivial⟩
  · exact lookupRoom_eraseRoom_self s.rooms rid
  · show lookupWs (setMeta s.clients ws (fun m2 => { m2 with roomId := none, state := "idle" })) ws = _
    rw [lookupWs_setMeta_self, hm]
    rfl
  · show lookupWs (setMeta s.clients ws (fun m2 => { m2 with roomId := none, state := "idle" })) other = some om
    rw [lookupWs_setMeta_ne _ _ _ _ hne]
    exact hom

/-- Witness for C10 on `wsRoomDead`: socket 1 leaves, partner 2 is
closed but registered. -/
theorem leaveRoom_dead_partner_frame_witness :
    lookupRoom (leaveRoom wsRoomDead 1).1.rooms 5 = none ∧
    lookupWs (leaveRoom wsRoomDead 1).1.clients 1 =
      some ⟨100, none, "idle", ⟨"any", "any"⟩⟩ ∧
    lookupWs (leaveRoom wsRoomDead 1).1.clients 2 =
      some ⟨101, some 5, "chat", ⟨"any", "any"⟩⟩ ∧
    (⟨101, some 5, "chat", ⟨"any", "any"⟩⟩ : Meta).roomId = some 5 ∧
    (leaveRoom wsRoomDead 1).2 = [] :=
  leaveRoom_dead_partner_frame wsRoomDead 1 2
    ⟨100, some 5, "chat", ⟨"any", "any"⟩⟩ ⟨101, some 5, "chat", ⟨"any", "any"⟩⟩ 5 ⟨1, 2⟩
    rfl rfl rfl rfl (by decide) (by decide) rfl rfl

/-- C2 counterexample: after two `find` requests are matched, both
clients' lifecycle state is the string `"chat"`, which is none of
`"idle"`, `"searching"`, `"chatting"` — the code never uses the state
value `"chatting"` claimed by the spec. -/
theorem reachable_chatting_cex :
    Reachable trA4 ∧
    ∃ p ∈ trA4.clients,
      p.2.state ≠ "idle" ∧ p.2.state ≠ "searching" ∧ p.2.state ≠ "chatting" := by
  refine ⟨trA4_reachable, ?_⟩
  decide

/-- C2 (amended): in every reachable state each registered connection's
state is one of `"idle"`, `"searching"`, `"chat"` (the code's string for
the chatting phase is `"chat"`, not `"chatting"`), pool membership and
room membership are mutually exclusive, and a successful match sets both
matched members' state to `"chat"`. -/
theorem reachable_states_and_mutex (s : ServerState) (h : Reachable s) :
    (∀ p ∈ s.clients, p.2.state = "idle" ∨ p.2.state = "searching" ∨ p.2.state = "chat") ∧
    (∀ ws, ¬(InQueue s ws ∧ InRoom s ws)) ∧
    (∀ now b A B, pickBest s now = some b →
      s.queue[b.i]? = some A → s.queue[b.j]? = some B →
      ∃ mA mB, lookupWs (tryMatch s now).1.clients A.ws = some mA ∧ mA.state = "chat" ∧
        lookupWs (tryMatch s now).1.clients B.ws = some mB ∧ mB.state = "chat") := by
  have hI := reachable_serverInv s h
  refine ⟨hI.statesOK, hI.mutEx, ?_⟩
  intro now b A B hb hA hB
  obtain ⟨A2, B2, hA2, hB2, hne, _, _, _, _, _, hclients, _, _⟩ :=
    tryMatch_match_facts s now b hI.queueNodup hb
  rw [hA] at hA2
  injection hA2 with hA2
  subst hA2
  rw [hB] at hB2
  injection hB2 with hB2
  subst hB2
  have hAmem : A ∈ s.queue := by
    obtain ⟨hlt, hEq⟩ := List.getElem?_eq_some.1 hA
    rw [← hEq]; exact List.getElem_mem _
  have hBmem : B ∈ s.queue := by
    obtain ⟨hlt, hEq⟩ := List.getElem?_eq_some.1 hB
    rw [← hEq]; exact List.getElem_mem _
  obtain ⟨mA, hmA⟩ := Option.isSome_iff_exists.1 (hI.queueReg A hAmem)
  obtain ⟨mB, hmB⟩ := Option.isSome_iff_exists.1 (hI.queueReg B hBmem)
  refine ⟨{ mA with roomId := some s.nextUid, state := "chat" },
          { mB with roomId := some s.nextUid, state := "chat" }, ?_, rfl, ?_, rfl⟩
  · rw [hclients, lookupWs_setMeta_ne _ _ _ _ hne, lookupWs_setMeta_self, hmA]
    rfl
  · rw [hclients, lookupWs_setMeta_self,
      lookupWs_setMeta_ne _ _ _ _ (fun he => hne he.symm), hmB]
    rfl

/-- Witness for C2's amended invariant at the reachable post-match
state `trA4`. -/
theorem reachable_states_and_mutex_witness :
    (∀ p ∈ trA4.clients, p.2.state = "idle" ∨ p.2.state = "searching" ∨ p.2.state = "chat") ∧
    (∀ ws, ¬(InQueue trA4 ws ∧ InRoom trA4 ws)) ∧
    (∀ now b A B, pickBest trA4 now = some b →
      trA4.queue[b.i]? = some A → trA4.queue[b.j]? = some B →
      ∃ mA mB, lookupWs (tryMatch trA4 now).1.clients A.ws = some mA ∧ mA.state = "chat" ∧
        lookupWs (tryMatch trA4 now).1.clients B.ws = some mB ∧ mB.state = "chat") :=
  reachable_states_and_mutex trA4 trA4_reachable

/-- C4 counterexample: in the reachable state `trA4` socket 10 is
chatting (state `"chat"`, so not `"searching"`); processing its `cancel`
is not a no-op on its record — the state becomes `"idle"` (while the
room reference survives). -/
theorem cancel_changes_chatting_state_cex :
    Reachable trA4 ∧
    (∃ m, lookupWs trA4.clients 10 = some m ∧ m.state = "chat" ∧
      m.state ≠ "searching" ∧ m.roomId = some 2) ∧
    (∃ m2, lookupWs (stepF trA4 (.msgCancel 10)).1.clients 10 = some m2 ∧
      m2.state = "idle" ∧ m2.state ≠ "chat" ∧ m2.roomId = some 2) := by
  refine ⟨trA4_reachable, ?_, ?_⟩ <;> decide

/-- C4 (amended): a `cancel` leaves the room table, the open-socket set,
the uid counter and every other connection's record unchanged, removes
the sender's pool entry if there is one (a no-op on the pool otherwise),
acknowledges with `canceled`, and unconditionally sets the sender's
state to `"idle"` while keeping its room reference — so for an idle
sender it is a complete no-op apart from the acknowledgment, but for a
chatting sender the state changes to `"idle"`. -/
theorem cancel_frame (s : ServerState) (ws : Nat) (m : Meta)
    (hm : lookupWs s.clients ws = some m) :
    (stepF s (.msgCancel ws)).1.rooms = s.rooms ∧
    (stepF s (.msgCancel ws)).1.openWs = s.openWs ∧
    (stepF s (.msgCancel ws)).1.nextUid = s.nextUid ∧
    (stepF s (.msgCancel ws)).1.queue = removeFromQueue s.queue ws ∧
    (¬ InQueue s ws → (stepF s (.msgCancel ws)).1.queue = s.queue) ∧
    (∀ k, k ≠ ws → lookupWs (stepF s (.msgCancel ws)).1.clients k = lookupWs s.clients k) ∧
    lookupWs (stepF s (.msgCancel ws)).1.clients ws = some { m with state := "idle" } ∧
    (stepF s (.msgCancel ws)).2 = (if isOpen s ws then [(ws, Msg.canceled)] else []) := by
  simp only [stepF, hm]
  refine ⟨trivial, trivial, trivial, trivial, ?_, ?_, ?_, ?_⟩
  · intro hnq
    exact removeFromQueue_of_not_mem s.queue ws (fun e he hee => hnq ⟨e, he, hee⟩)
  · intro k hk
    exact lookupWs_setMeta_ne _ _ _ _ hk
  · rw [lookupWs_setMeta_self, hm]
    rfl
  · rfl

/-- Witness for C4's amended statement: `cancel` from the chatting
socket 1 of `wsRoom`. -/
theorem cancel_frame_witness :
    (stepF wsRoom (.msgCancel 1)).1.rooms = wsRoom.rooms ∧
    (stepF wsRoom (.msgCancel 1)).1.openWs = wsRoom.openWs ∧
    (stepF wsRoom (.msgCancel 1)).1.nextUid = wsRoom.nextUid ∧
    (stepF wsRoom (.msgCancel 1)).1.queue = removeFromQueue wsRoom.queue 1 ∧
    (¬ InQueue wsRoom 1 → (stepF wsRoom (.msgCancel 1)).1.queue = wsRoom.queue) ∧
    (∀ k, k ≠ 1 → lookupWs (stepF wsRoom (.msgCancel 1)).1.clients k = lookupWs wsRoom.clients k) ∧
    lookupWs (stepF wsRoom (.msgCancel 1)).1.clients 1 =
      some ⟨100, some 5, "idle", ⟨"any", "any"⟩⟩ ∧
    (stepF wsRoom (.msgCancel 1)).2 = (if isOpen wsRoom 1 then [(1, Msg.canceled)] else []) :=
  cancel_frame wsRoom 1 ⟨100, some 5, "chat", ⟨"any", "any"⟩⟩ rfl

/-- C8: for a `chat` request from a connection bound to an existing
room: if the partner's socket is open, the partner receives a `chat`
message carrying exactly the sender's text and the state is completely
unchanged; if the partner's socket is not open, the sender is sent
`partner_left`, the room is deleted, nothing is relayed, and the pool is
untouched. -/
theorem chat_relay_spec (s : ServerState) (ws : Nat) (t : String) (m : Meta)
    (rid : Nat) (room : Room)
    (hm : lookupWs s.clients ws = some m) (hr : m.roomId = some rid)
    (hroom : lookupRoom s.rooms rid = some room) :
    (isOpen s (if room.a = ws then room.b else room.a) = true →
      stepF s (.msgChat ws (some t)) =
        (s, [((if room.a = ws then room.b else room.a), Msg.chat t)])) ∧
    (isOpen s (if room.a = ws then room.b else room.a) = false → isOpen s ws = true →
      (stepF s (.msgChat ws (some t))).2 = [(ws, Msg.partnerLeft)] ∧
      lookupRoom (stepF s (.msgChat ws (some t))).1.rooms rid = none ∧
      (stepF s (.msgChat ws (some t))).1.queue = s.queue) := by
  constructor
  · intro ho
    have htext : (if t = "" then "" else t) = t := by
      by_cases ht : t = "" <;> simp [ht]
    simp only [stepF, hm, hr, hroom, ho, if_true, htext]
    simp [safeSend, ho]
  · intro ho hws
    have hlr := leaveRoom_eq_of_room s ws m rid room hm hr hroom
    simp only [stepF, hm, hr, hroom, ho, Bool.false_eq_true, if_false, hlr]
    refine ⟨?_, ?_, trivial⟩
    · simp [safeSend, hws, ho]
    · exact lookupRoom_eraseRoom_self s.rooms rid

/-- Witness for C8 on `wsRoom` (open partner) and `wsRoomDead`
(closed partner). -/
theorem chat_relay_spec_witness :
    stepF wsRoom (.msgChat 1 (some "hi")) = (wsRoom, [(2, Msg.chat "hi")]) ∧
    (stepF wsRoomDead (.msgChat 1 (some "hi"))).2 = [(1, Msg.partnerLeft)] ∧
    lookupRoom (stepF wsRoomDead (.msgChat 1 (some "hi"))).1.rooms 5 = none ∧
    (stepF wsRoomDead (.msgChat 1 (some "hi"))).1.queue = wsRoomDead.queue :=
  ⟨(chat_relay_spec wsRoom 1 "hi" ⟨100, some 5, "chat", ⟨"any", "any"⟩⟩ 5 ⟨1, 2⟩
      rfl rfl rfl).1 (by decide),
   (chat_relay_spec wsRoomDead 1 "hi" ⟨100, some 5, "chat", ⟨"any", "any"⟩⟩ 5 ⟨1, 2⟩
      rfl rfl rfl).2 (by decide) (by decide)⟩

/-- C3 counterexample: with two `{any, any}` entries the pair is indeed
matched, but `"any" = "any"` also earns the +2 and +4 equality bonuses,
so `base = 2 + 4 + 1 + 1 = 8`, not `0 + 1 + 1 = 2` as claimed: the
total is `8 + waitBonus`, which differs from `0 + 1 + 1 + waitBonus`. -/
theorem anyany_base_cex :
    pickBest wsPair 0 = some ⟨0, 1, pairTotal 0 wE1 wE2⟩ ∧
    matchScore wE1.prefs wE2.prefs = 8 ∧
    waitingBonus 0 wE1 wE2 = 0 ∧
    pairTotal 0 wE1 wE2 ≠ 0 + 1 + 1 + waitingBonus 0 wE1 wE2 := by
  have h01 : waitSeconds 0 wE1 = 0 := by
    show (((0 : Nat) : ℚ) - ((wE1.enqueuedAt : Nat) : ℚ)) / 1000 = 0
    norm_num [wE1]
  have h02 : waitSeconds 0 wE2 = 0 := by
    show (((0 : Nat) : ℚ) - ((wE2.enqueuedAt : Nat) : ℚ)) / 1000 = 0
    norm_num [wE2]
  have hbonus : waitingBonus 0 wE1 wE2 = 0 := by
    show min 10 ((waitSeconds 0 wE1 + waitSeconds 0 wE2) / 6) = 0
    rw [h01, h02]
    rw [show ((0 : ℚ) + 0) / 6 = 0 by norm_num]
    exact min_eq_right (by norm_num)
  refine ⟨rfl, by decide, hbonus, ?_⟩
  intro hcontra
  have hpt : pairTotal 0 wE1 wE2 = (8 : ℚ) + waitingBonus 0 wE1 wE2 := by
    show ((matchScore wE1.prefs wE2.prefs : Nat) : ℚ) + waitingBonus 0 wE1 wE2 = _
    norm_num [show matchScore wE1.prefs wE2.prefs = 8 from by decide]
  rw [hpt, hbonus] at hcontra
  norm_num at hcontra

/-- C3 (amended): if the pool holds exactly two entries, both with
preferences `{any, any}` and open sockets, `tryMatch` pairs exactly
those two; their base is `2 + 4 + 1 + 1 = 8`, so
`total = 8 + waitBonus ≥ 8` (when evaluated no earlier than the enqueue
times). -/
theorem two_anyany_entries_match (s : ServerState) (now : Nat) (e1 e2 : Entry)
    (hq : s.queue = [e1, e2])
    (hp1 : e1.prefs = ⟨"any", "any"⟩) (hp2 : e2.prefs = ⟨"any", "any"⟩)
    (ho1 : isOpen s e1.ws = true) (ho2 : isOpen s e2.ws = true)
    (ht1 : e1.enqueuedAt ≤ now) (ht2 : e2.enqueuedAt ≤ now) :
    pickBest s now = some ⟨0, 1, pairTotal now e1 e2⟩ ∧
    lookupRoom (tryMatch s now).1.rooms s.nextUid = some (Room.mk e1.ws e2.ws) ∧
    (tryMatch s now).1.queue = [] ∧
    pairTotal now e1 e2 = 8 + waitingBonus now e1 e2 ∧
    (8 : ℚ) ≤ pairTotal now e1 e2 := by
  have hlen : s.queue.length = 2 := by rw [hq]; rfl
  have hq0 : s.queue[(0 : Nat)]? = some e1 := by rw [hq]; rfl
  have hq1 : s.queue[(1 : Nat)]? = some e2 := by rw [hq]; rfl
  have hpb : pickBest s now = some ⟨0, 1, pairTotal now e1 e2⟩ := by
    show scanBest s.queue (fun w => isOpen s w) now (pairIndices s.queue.length) none = _
    rw [hlen]
    rw [show pairIndices 2 = [(0, 1)] from by decide]
    simp only [scanBest, hq0, hq1, ho1, ho2, Bool.and_self, if_true]
  have h8 : matchScore e1.prefs e2.prefs = 8 := by
    rw [hp1, hp2]; decide
  have hpt : pairTotal now e1 e2 = 8 + waitingBonus now e1 e2 := by
    show ((matchScore e1.prefs e2.prefs : Nat) : ℚ) + waitingBonus now e1 e2 = _
    norm_num [h8]
  have hw1 : (0 : ℚ) ≤ waitSeconds now e1 := by
    show (0 : ℚ) ≤ ((now : ℚ) - (e1.enqueuedAt : ℚ)) / 1000
    have hcast : (e1.enqueuedAt : ℚ) ≤ (now : ℚ) := by exact_mod_cast ht1
    apply div_nonneg (by linarith) (by norm_num)
  have hw2 : (0 : ℚ) ≤ waitSeconds now e2 := by
    show (0 : ℚ) ≤ ((now : ℚ) - (e2.enqueuedAt : ℚ)) / 1000
    have hcast : (e2.enqueuedAt : ℚ) ≤ (now : ℚ) := by exact_mod_cast ht2
    apply div_nonneg (by linarith) (by norm_num)
  have hbonus : (0 : ℚ) ≤ waitingBonus now e1 e2 := by
    show (0 : ℚ) ≤ min 10 ((waitSeconds now e1 + waitSeconds now e2) / 6)
    refine le_min (by norm_num) ?_
    apply div_nonneg (by linarith) (by norm_num)
  have hnlt : ¬ s.queue.length < 2 := by rw [hlen]; decide
  have heq := tryMatch_eq_of_best s now ⟨0, 1, pairTotal now e1 e2⟩ e1 e2 hnlt hpb hq0 hq1
  refine ⟨hpb, ?_, ?_, hpt, ?_⟩
  · rw [heq]
    show lookupRoom ((s.nextUid, Room.mk e1.ws e2.ws) :: s.rooms) s.nextUid = _
    simp [lookupRoom]
  · rw [heq]
    show (s.queue.eraseIdx 1).eraseIdx 0 = []
    rw [hq]
    rfl
  · rw [hpt]
    linarith

/-- Witness for C3's amended statement on `wsPair`. -/
theorem two_anyany_entries_match_witness :
    pickBest wsPair 0 = some ⟨0, 1, pairTotal 0 wE1 wE2⟩ ∧
    lookupRoom (tryMatch wsPair 0).1.rooms wsPair.nextUid = some (Room.mk wE1.ws wE2.ws) ∧
    (tryMatch wsPair 0).1.queue = [] ∧
    pairTotal 0 wE1 wE2 = 8 + waitingBonus 0 wE1 wE2 ∧
    (8 : ℚ) ≤ pairTotal 0 wE1 wE2 :=
  two_anyany_entries_match wsPair 0 wE1 wE2 rfl rfl rfl (by decide) (by decide)
    (by decide) (by decide)

/-- C5 counterexample: `trB5` is reached by an enqueue-triggered
`tryMatch` invocation (socket 21's `find`), yet an entry whose socket 20
is no longer open is still in the pool afterwards — the invocation did
not purge it. -/
theorem no_purge_on_enqueue_cex :
    Reachable trB5 ∧
    trB5 = (stepF trB4 (.msgFind 21 0 none none)).1 ∧
    (∃ e ∈ trB5.queue, e.ws ∉ trB5.openWs) := by
  refine ⟨trB5_reachable, rfl, by decide⟩

/-- C5 (amended): only the periodic tick purges closed-socket entries —
it filters the queue down to open sockets before running `tryMatch`, so
every entry surviving a tick is open; `tryMatch` itself never purges: it
merely skips pairs with a closed socket while scanning, stops when the
raw queue (dead entries included) has fewer than two entries, and leaves
the state untouched whenever no pair is selected. -/
theorem tick_purges_but_tryMatch_skips (s : ServerState) (now : Nat) :
    stepF s (.tick now) =
      tryMatch { s with queue := s.queue.filter (fun e => isOpen s e.ws) } now ∧
    (∀ e ∈ (stepF s (.tick now)).1.queue, isOpen s e.ws = true) ∧
    (s.queue.length < 2 → tryMatch s now = (s, [])) ∧
    (pickBest s now = none → tryMatch s now = (s, [])) := by
  refine ⟨rfl, ?_, fun hl => tryMatch_eq_of_short s now hl,
    fun hn => tryMatch_eq_of_noBest s now hn⟩
  intro e he
  replace he : e ∈ (tryMatch { s with queue := s.queue.filter (fun e2 => isOpen s e2.ws) } now).1.queue := he
  have hmem := (tryMatch_queue_sublist _ now).subset he
  replace hmem : e ∈ s.queue.filter (fun e2 => isOpen s e2.ws) := hmem
  exact (List.mem_filter.1 hmem).2

/-- Witness for C5's amended statement at `trB4` (one dead entry
queued). -/
theorem tick_purges_but_tryMatch_skips_witness :
    stepF trB4 (.tick 0) =
      tryMatch { trB4 with queue := trB4.queue.filter (fun e => isOpen trB4 e.ws) } 0 ∧
    (∀ e ∈ (stepF trB4 (.tick 0)).1.queue, isOpen trB4 e.ws = true) ∧
    tryMatch trB4 0 = (trB4, []) :=
  ⟨(tick_purges_but_tryMatch_skips trB4 0).1,
   (tick_purges_but_tryMatch_skips trB4 0).2.1,
   (tick_purges_but_tryMatch_skips trB4 0).2.2.1 (by decide)⟩

/-- C6: assuming each socket has at most one pool entry, a successful
match never pairs a socket with itself: the two selected entries have
distinct sockets, the created room's two members are those distinct
sockets, and exactly the two matched entries leave the pool (the old
queue is a permutation of the two entries plus the new queue, so the
pool shrinks by exactly 2). -/
theorem tryMatch_match_effect (s : ServerState) (now : Nat) (b : Best)
    (hnd : (s.queue.map Entry.ws).Nodup) (hb : pickBest s now = some b) :
    ∃ A B, s.queue[b.i]? = some A ∧ s.queue[b.j]? = some B ∧ A.ws ≠ B.ws ∧
      lookupRoom (tryMatch s now).1.rooms s.nextUid = some (Room.mk A.ws B.ws) ∧
      s.queue.Perm (A :: B :: (tryMatch s now).1.queue) ∧
      (tryMatch s now).1.queue.length + 2 = s.queue.length := by
  obtain ⟨A, B, hA, hB, hne, hq, hperm, hlen2, hrooms, hlook, hclients, huid, hopen⟩ :=
    tryMatch_match_facts s now b hnd hb
  exact ⟨A, B, hA, hB, hne, hlook, hperm, hlen2⟩

/-- Witness for C6 on `wsPair`. -/
theorem tryMatch_match_effect_witness :
    ∃ A B, wsPair.queue[(0 : Nat)]? = some A ∧ wsPair.queue[(1 : Nat)]? = some B ∧
      A.ws ≠ B.ws ∧
      lookupRoom (tryMatch wsPair 0).1.rooms wsPair.nextUid = some (Room.mk A.ws B.ws) ∧
      wsPair.queue.Perm (A :: B :: (tryMatch wsPair 0).1.queue) ∧
      (tryMatch wsPair 0).1.queue.length + 2 = wsPair.queue.length :=
  tryMatch_match_effect wsPair 0 ⟨0, 1, pairTotal 0 wE1 wE2⟩ (by decide) rfl

/-- C7: one `tryMatch` invocation performs at most one match (the room
table grows by at most one room), the scanned index pairs are exactly
the `(i, j)` with `i < j` in outer-`i`/inner-`j` order, and the selected
pair carries the greatest total, with every open pair scanned strictly
earlier scoring strictly less — so on ties the first pair encountered
wins and the choice is deterministic. -/
theorem tryMatch_one_match_first_best (s : ServerState) (now : Nat) :
    ((tryMatch s now).1.rooms.length ≤ s.rooms.length + 1) ∧
    (∀ i j, ((i, j) ∈ pairIndices s.queue.length ↔ i < j ∧ j < s.queue.length)) ∧
    (∀ b, pickBest s now = some b →
      ∃ pre post A B, pairIndices s.queue.length = pre ++ (b.i, b.j) :: post ∧
        s.queue[b.i]? = some A ∧ s.queue[b.j]? = some B ∧
        isOpen s A.ws = true ∧ isOpen s B.ws = true ∧ pairTotal now A B = b.total ∧
        (∀ p ∈ pairIndices s.queue.length, ∀ A2 B2, s.queue[p.1]? = some A2 →
          s.queue[p.2]? = some B2 → isOpen s A2.ws = true → isOpen s B2.ws = true →
          pairTotal now A2 B2 ≤ b.total) ∧
        (∀ p ∈ pre, ∀ A2 B2, s.queue[p.1]? = some A2 → s.queue[p.2]? = some B2 →
          isOpen s A2.ws = true → isOpen s B2.ws = true → pairTotal now A2 B2 < b.total)) :=
  ⟨tryMatch_rooms_length s now, fun i j => mem_pairIndices _ i j,
   fun b hb => pickBest_sound s now b hb⟩

/-- Witness for C7 on `wsPair`. -/
theorem tryMatch_one_match_first_best_witness :
    (tryMatch wsPair 0).1.rooms.length ≤ wsPair.rooms.length + 1 ∧
    (∃ pre post A B, pairIndices wsPair.queue.length = pre ++ (0, 1) :: post ∧
      wsPair.queue[(0 : Nat)]? = some A ∧ wsPair.queue[(1 : Nat)]? = some B ∧
      isOpen wsPair A.ws = true ∧ isOpen wsPair B.ws = true ∧
      pairTotal 0 A B = pairTotal 0 wE1 wE2 ∧
      (∀ p ∈ pairIndices wsPair.queue.length, ∀ A2 B2, wsPair.queue[p.1]? = some A2 →
        wsPair.queue[p.2]? = some B2 → isOpen wsPair A2.ws = true → isOpen wsPair B2.ws = true →
        pairTotal 0 A2 B2 ≤ pairTotal 0 wE1 wE2) ∧
      (∀ p ∈ pre, ∀ A2 B2, wsPair.queue[p.1]? = some A2 → wsPair.queue[p.2]? = some B2 →
        isOpen wsPair A2.ws = true → isOpen wsPair B2.ws = true →
        pairTotal 0 A2 B2 < pairTotal 0 wE1 wE2)) :=
  ⟨(tryMatch_one_match_first_best wsPair 0).1,
   (tryMatch_one_match_first_best wsPair 0).2.2 ⟨0, 1, pairTotal 0 wE1 wE2⟩ rfl⟩
